import Mathlib

/-!
# Verification of the WetLabColorMatchingAI optimization core

Shallow embedding of `src/color_learning.py` and the `active_learning`
iteration controller of `src/main_color_matching.py`.

Modelling conventions:
* Dye volumes are natural numbers (Python manipulates them as non-negative
  ints produced from `step`-multiples); the running `remain` budget is an
  integer, since the Python code can drive it below zero.
* Randomness (`random.randint`, `random.random() < 0.7`) is modelled by an
  explicit oracle `Rand`: raw entropy values are reduced with `% (hi + 1)`,
  so every oracle yields a legal draw and every legal draw is realized by
  some oracle.
* Colors are lists of real numbers; `math.sqrt` is `Real.sqrt` (floats are
  idealized as reals).
* Unbounded `while` loops are given explicit fuel and return `Option`;
  `none` stands for a run that exceeded the fuel (possible divergence).
-/

/-- Oracle for one call of `random_combination`: raw entropy for the
`primary_dye` draw, the per-index outcome of `random.random() < 0.7`,
raw entropy for the per-index `randint(0, possible_steps)` draw, and raw
entropy for the `lucky_dye` draw. -/
structure RandOracle where
  primary : Nat
  coin : Nat → Bool
  amt : Nat → Nat
  lucky : Nat

/-- `random.randint(0, n)`: an inclusive uniform draw, realized from raw
entropy `r` as `r % (n + 1)`. -/
def randint0 (r n : Nat) : Nat := r % (n + 1)

/-- The `for i in range(dye_count)` loop of `random_combination`
(src/color_learning.py lines 29-37).  `fuel` counts the remaining loop
indices (initially `dye_count`); the `remain <= 0` test is the `break`. -/
def rc_loop (step : Nat) (coin : Nat → Bool) (amt : Nat → Nat) :
    Nat → Nat → List Nat → Int → List Nat × Int
  | _, 0, vols, remain => (vols, remain)
  | i, fuel + 1, vols, remain =>
    if remain ≤ 0 then (vols, remain)
    else if coin i then
      -- possible_steps = remain // step (remain > 0 here, so Nat division)
      let ps : Nat := remain.toNat / step
      if 0 < ps then
        let vol : Nat := randint0 (amt i) ps * step
        rc_loop step coin amt (i + 1) fuel
          (vols.set i (vols.getD i 0 + vol)) (remain - vol)
      else rc_loop step coin amt (i + 1) fuel vols remain
    else rc_loop step coin amt (i + 1) fuel vols remain

/-- `random_combination(dye_count, step, max_volume)` from
src/color_learning.py lines 19-43, parameterized by the random oracle. -/
def random_combination (dye_count step max_volume : Nat) (r : RandOracle) : List Nat :=
  let vols : List Nat := List.replicate dye_count 0
  let remain : Int := (max_volume : Int)
  -- primary dye seeding (lines 23-27)
  let seeded :=
    if 0 < remain ∧ 0 < dye_count then
      ((vols.set (randint0 r.primary (dye_count - 1)) step), remain - (step : Int))
    else (vols, remain)
  -- per-dye probabilistic allocation (lines 29-37)
  let looped := rc_loop step r.coin r.amt 0 dye_count seeded.1 seeded.2
  -- lucky-dye leftover dump (lines 39-41)
  if 0 < looped.2 ∧ 0 < dye_count then
    let lucky := randint0 r.lucky (dye_count - 1)
    looped.1.set lucky (looped.1.getD lucky 0 + looped.2.toNat)
  else looped.1

/-- Adding `x` at a valid index changes the sum by `x`. -/
lemma sum_set_add (l : List Nat) (i x : Nat) (h : i < l.length) :
    (l.set i (l.getD i 0 + x)).sum = l.sum + x := by
  induction l generalizing i with
  | nil => simp at h
  | cons a t ih =>
    cases i with
    | zero => simp [List.set]; omega
    | succ n =>
      simp only [List.set, List.getD_cons_succ, List.sum_cons]
      rw [ih n (by simpa using h)]
      omega

/-- Elements of `List.replicate n 0` seen through `getD` are zero. -/
lemma getD_replicate_zero (n i : Nat) : (List.replicate n (0 : Nat)).getD i 0 = 0 := by
  rcases lt_or_le i n with h | h
  · rw [List.getD_eq_getElem _ _ (by simpa using h)]
    simp
  · rw [List.getD_eq_default _ _ (by simpa using h)]

/-- Invariant carried through the allocation loop of `random_combination`:
budget stays non-negative and step-divisible, every volume stays a
multiple of `step`, the total (volumes plus budget) is conserved, and the
length is unchanged. -/
lemma rc_loop_invariant (step : Nat) (coin : Nat → Bool) (amt : Nat → Nat) :
    ∀ fuel i vols (remain : Int), 0 ≤ remain → (step : Int) ∣ remain →
      (∀ v ∈ vols, step ∣ v) → i + fuel ≤ vols.length →
      0 ≤ (rc_loop step coin amt i fuel vols remain).2 ∧
      (step : Int) ∣ (rc_loop step coin amt i fuel vols remain).2 ∧
      (∀ v ∈ (rc_loop step coin amt i fuel vols remain).1, step ∣ v) ∧
      ((rc_loop step coin amt i fuel vols remain).1.sum : Int) +
          (rc_loop step coin amt i fuel vols remain).2 = (vols.sum : Int) + remain ∧
      (rc_loop step coin amt i fuel vols remain).1.length = vols.length := by
  intro fuel
  induction fuel with
  | zero =>
    intro i vols remain h0 hdvd hmem hlen
    simp only [rc_loop]
    exact ⟨h0, hdvd, hmem, trivial, trivial⟩
  | succ fuel ih =>
    intro i vols remain h0 hdvd hmem hlen
    rw [rc_loop]
    by_cases hr : remain ≤ 0
    · rw [if_pos hr]; exact ⟨h0, hdvd, hmem, rfl, rfl⟩
    · rw [if_neg hr]
      by_cases hc : coin i
      · rw [if_pos hc]
        by_cases hps : 0 < remain.toNat / step
        · rw [if_pos hps]
          set ps := remain.toNat / step with hps_def
          set vol := randint0 (amt i) ps * step with hvol_def
          have hi : i < vols.length := by omega
          have hvol_le : (vol : Int) ≤ remain := by
            have h1 : randint0 (amt i) ps ≤ ps := by
              have h := Nat.mod_lt (amt i) (show 0 < ps + 1 by omega)
              unfold randint0; omega
            have h2 : vol ≤ ps * step := Nat.mul_le_mul_right step h1
            have h3 : ps * step ≤ remain.toNat := Nat.div_mul_le_self _ _
            have h4 : (remain.toNat : Int) = remain := Int.toNat_of_nonneg h0
            have : (vol : Int) ≤ (remain.toNat : Int) := by exact_mod_cast le_trans h2 h3
            omega
          have hmem' : ∀ v ∈ vols.set i (vols.getD i 0 + vol), step ∣ v := by
            intro v hv
            rcases List.mem_or_eq_of_mem_set hv with h | h
            · exact hmem v h
            · subst h
              have hgd : step ∣ vols.getD i 0 := by
                rw [List.getD_eq_getElem _ _ (by simpa using hi)]
                exact hmem _ (List.getElem_mem _)
              exact Dvd.dvd.add hgd ⟨randint0 (amt i) ps, by rw [hvol_def]; ring⟩
          have hres := ih (i + 1) (vols.set i (vols.getD i 0 + vol)) (remain - vol)
            (by omega)
            (by
              rcases hdvd with ⟨k, hk⟩
              exact ⟨k - randint0 (amt i) ps, by rw [hvol_def]; push_cast; rw [hk]; ring⟩)
            hmem'
            (by rw [List.length_set]; omega)
          refine ⟨hres.1, hres.2.1, hres.2.2.1, ?_, by rw [hres.2.2.2.2, List.length_set]⟩
          rw [hres.2.2.2.1, sum_set_add _ _ _ hi]
          push_cast
          ring
        · rw [if_neg hps]
          exact ih (i + 1) vols remain h0 hdvd hmem (by omega)
      · rw [if_neg hc]
        exact ih (i + 1) vols remain h0 hdvd hmem (by omega)

/-- C1 (amended): when `step` divides `max_volume`, `random_combination`
produces `dye_count` volumes, all non-negative multiples of `step`, summing
exactly to `max_volume`. -/
theorem claim_C1 (dye_count step max_volume : Nat) (r : RandOracle)
    (hdc : 0 < dye_count) (hst : 0 < step) (hmv : 0 < max_volume)
    (hdvd : step ∣ max_volume) :
    (random_combination dye_count step max_volume r).length = dye_count ∧
    (∀ v ∈ random_combination dye_count step max_volume r, step ∣ v) ∧
    (random_combination dye_count step max_volume r).sum = max_volume := by
  have hstmv : step ≤ max_volume := Nat.le_of_dvd hmv hdvd
  have hcond : (0 : Int) < (max_volume : Int) ∧ 0 < dye_count := ⟨by exact_mod_cast hmv, hdc⟩
  simp only [random_combination]
  rw [if_pos hcond]
  set p := randint0 r.primary (dye_count - 1) with hp_def
  have hplt : p < dye_count := by
    have h := Nat.mod_lt r.primary (show 0 < dye_count - 1 + 1 by omega)
    unfold randint0 at hp_def; omega
  set vols1 := (List.replicate dye_count (0 : Nat)).set p step with hvols1
  have hlen1 : vols1.length = dye_count := by rw [hvols1, List.length_set, List.length_replicate]
  have hmem1 : ∀ v ∈ vols1, step ∣ v := by
    intro v hv
    rcases List.mem_or_eq_of_mem_set hv with h | h
    · rcases List.eq_of_mem_replicate h with rfl; exact dvd_zero step
    · subst h; exact dvd_rfl
  have hsum1 : vols1.sum = step := by
    have : vols1 = (List.replicate dye_count (0 : Nat)).set p
        ((List.replicate dye_count (0 : Nat)).getD p 0 + step) := by
      rw [hvols1, getD_replicate_zero, Nat.zero_add]
    rw [this, sum_set_add _ _ _ (by simpa using hplt), List.sum_replicate]
    simp
  have hrem1 : (0 : Int) ≤ (max_volume : Int) - step := by
    have : (step : Int) ≤ (max_volume : Int) := by exact_mod_cast hstmv
    omega
  have hdvd1 : (step : Int) ∣ (max_volume : Int) - step := by
    rcases hdvd with ⟨k, hk⟩
    exact ⟨k - 1, by rw [hk]; push_cast; ring⟩
  have hloop := rc_loop_invariant step r.coin r.amt dye_count 0 vols1
    ((max_volume : Int) - step) hrem1 hdvd1 hmem1 (by omega)
  set out := rc_loop step r.coin r.amt 0 dye_count vols1 ((max_volume : Int) - step) with hout
  obtain ⟨hO0, hOdvd, hOmem, hOsum, hOlen⟩ := hloop
  rw [hsum1] at hOsum
  by_cases hleft : 0 < out.2 ∧ 0 < dye_count
  · rw [if_pos hleft]
    set lucky := randint0 r.lucky (dye_count - 1) with hl_def
    have hllt : lucky < dye_count := by
      have h := Nat.mod_lt r.lucky (show 0 < dye_count - 1 + 1 by omega)
      unfold randint0 at hl_def; omega
    have hll : lucky < out.1.length := by omega
    refine ⟨by rw [List.length_set]; omega, ?_, ?_⟩
    · intro v hv
      rcases List.mem_or_eq_of_mem_set hv with h | h
      · exact hOmem v h
      · subst h
        have hgd : step ∣ out.1.getD lucky 0 := by
          rw [List.getD_eq_getElem _ _ (by simpa using hll)]
          exact hOmem _ (List.getElem_mem _)
        refine Dvd.dvd.add hgd ?_
        rcases hOdvd with ⟨k, hk⟩
        have hk' : (out.2.toNat : Int) = (step : Int) * k := by
          rw [Int.toNat_of_nonneg hO0, hk]
        have hknn : 0 ≤ k := by
          by_contra hneg
          push_neg at hneg
          have : (step : Int) * k ≤ 0 := by
            apply mul_nonpos_of_nonneg_of_nonpos
            · exact_mod_cast Nat.zero_le step
            · omega
          omega
        exact ⟨k.toNat, by
          have : (out.2.toNat : Int) = ((step * k.toNat : Nat) : Int) := by
            push_cast
            rw [Int.toNat_of_nonneg hknn]
            exact hk'
          exact_mod_cast this⟩
    · rw [sum_set_add _ _ _ hll]
      have h5 : (out.2.toNat : Int) = out.2 := Int.toNat_of_nonneg hO0
      have h6 : ((out.1.sum + out.2.toNat : Nat) : Int) = (max_volume : Int) := by
        rw [Nat.cast_add, h5]
        omega
      exact_mod_cast h6
  · rw [if_neg hleft]
    have hO2 : out.2 = 0 := by
      rcases not_and_or.mp hleft with h | h
      · omega
      · exact absurd hdc h
    refine ⟨by omega, hOmem, ?_⟩
    have : (out.1.sum : Int) = (max_volume : Int) := by omega
    exact_mod_cast this

/-- Witness for C1: a concrete run with `dye_count = 2`, `step = 5`,
`max_volume = 10`. -/
theorem claim_C1_witness :
    (random_combination 2 5 10 ⟨0, fun _ => true, fun _ => 1, 0⟩).length = 2 ∧
    (∀ v ∈ random_combination 2 5 10 ⟨0, fun _ => true, fun _ => 1, 0⟩, 5 ∣ v) ∧
    (random_combination 2 5 10 ⟨0, fun _ => true, fun _ => 1, 0⟩).sum = 10 :=
  claim_C1 2 5 10 ⟨0, fun _ => true, fun _ => 1, 0⟩
    (by decide) (by decide) (by decide) (by decide)

/-- Counterexample to C1 as stated: with `dye_count = 1`, `step = 2`,
`max_volume = 3` (all positive), the leftover dump yields `[3]`, whose
single entry is not a multiple of `step = 2`. -/
theorem claim_C1_counterexample :
    ¬ ((random_combination 1 2 3 ⟨0, fun _ => true, fun _ => 0, 0⟩).length = 1 ∧
       (∀ v ∈ random_combination 1 2 3 ⟨0, fun _ => true, fun _ => 0, 0⟩, 2 ∣ v) ∧
       (random_combination 1 2 3 ⟨0, fun _ => true, fun _ => 0, 0⟩).sum = 3) := by
  decide

/-- `calculate_distance_to_target(color, target_rgb)` from
src/color_learning.py lines 7-8: Euclidean distance over the zipped
channel lists.  `zip` truncates to the shorter list, exactly as the Python
generator over `zip(color, target_rgb)` does, and the function is total:
a length mismatch raises no error. -/
noncomputable def calculate_distance_to_target (color target_rgb : List ℝ) : ℝ :=
  Real.sqrt (((color.zip target_rgb).map (fun p => (p.1 - p.2) ^ 2)).sum)

/-- `color_distance_score(color, target_rgb, max_distance)` from
src/color_learning.py lines 10-13: `(1 - distance / max_distance) ** 3`. -/
noncomputable def color_distance_score (color target_rgb : List ℝ)
    (max_distance : ℝ) : ℝ :=
  (1 - calculate_distance_to_target color target_rgb / max_distance) ^ 3

/-- The default `max_distance = 441.7` of `color_distance_score`. -/
noncomputable def DEFAULT_MAX_DISTANCE : ℝ := 4417 / 10

/-- `within_tolerance(color, target_rgb, tolerance)` from
src/color_learning.py lines 15-17. -/
def within_tolerance (color target_rgb : List ℝ) (tolerance : ℝ) : Prop :=
  calculate_distance_to_target color target_rgb ≤ tolerance

/-- C8: for a fixed target and fixed (positive) `max_distance`, the fitness
score is strictly decreasing in the distance, and equals `1.0` at distance
zero. -/
theorem claim_C8 (target a b c : List ℝ) (M : ℝ) (hM : 0 < M)
    (hab : calculate_distance_to_target a target < calculate_distance_to_target b target)
    (hc : calculate_distance_to_target c target = 0) :
    color_distance_score b target M < color_distance_score a target M ∧
    color_distance_score c target M = 1 := by
  constructor
  · unfold color_distance_score
    have h1 : 1 - calculate_distance_to_target b target / M <
        1 - calculate_distance_to_target a target / M := by
      have := (div_lt_div_iff_of_pos_right hM).mpr hab
      linarith
    exact (show Odd 3 by exact ⟨1, by norm_num⟩).strictMono_pow h1
  · unfold color_distance_score
    rw [hc]
    norm_num

/-- Witness for C8 at target `[0,0,0]`, colors `[0,0,0]` (distance 0) and
`[3,4,0]` (distance 5), with the default `max_distance`. -/
theorem claim_C8_witness :
    (0 : ℝ) < DEFAULT_MAX_DISTANCE ∧
    calculate_distance_to_target [0, 0, 0] [0, 0, 0] <
      calculate_distance_to_target [3, 4, 0] [0, 0, 0] ∧
    calculate_distance_to_target [0, 0, 0] [0, 0, 0] = 0 ∧
    (color_distance_score [3, 4, 0] [0, 0, 0] DEFAULT_MAX_DISTANCE <
       color_distance_score [0, 0, 0] [0, 0, 0] DEFAULT_MAX_DISTANCE ∧
     color_distance_score [0, 0, 0] [0, 0, 0] DEFAULT_MAX_DISTANCE = 1) := by
  have hM : (0 : ℝ) < DEFAULT_MAX_DISTANCE := by unfold DEFAULT_MAX_DISTANCE; norm_num
  have h0 : calculate_distance_to_target [0, 0, 0] [0, 0, 0] = 0 := by
    unfold calculate_distance_to_target
    simp [List.zip]
  have h5 : calculate_distance_to_target [3, 4, 0] [0, 0, 0] = 5 := by
    unfold calculate_distance_to_target
    have : (([(3 : ℝ), 4, 0].zip [(0 : ℝ), 0, 0]).map (fun p => (p.1 - p.2) ^ 2)).sum =
        25 := by
      simp [List.zip]
      norm_num
    rw [this, show (25 : ℝ) = 5 ^ 2 by norm_num, Real.sqrt_sq (by norm_num)]
  have hlt : calculate_distance_to_target [0, 0, 0] [0, 0, 0] <
      calculate_distance_to_target [3, 4, 0] [0, 0, 0] := by
    rw [h0, h5]; norm_num
  exact ⟨hM, hlt, h0, claim_C8 [0, 0, 0] [0, 0, 0] [3, 4, 0] [0, 0, 0]
    DEFAULT_MAX_DISTANCE hM hlt h0⟩

/-- C10: a channel-count mismatch between the two colors is silently
truncated to the common prefix, in the distance, the tolerance predicate
and the fitness score (the functions are total, so no error is raised). -/
theorem claim_C10 (a b : List ℝ) (tol M : ℝ) :
    calculate_distance_to_target a b =
      calculate_distance_to_target (a.take (min a.length b.length))
        (b.take (min a.length b.length)) ∧
    (within_tolerance a b tol ↔
      within_tolerance (a.take (min a.length b.length))
        (b.take (min a.length b.length)) tol) ∧
    color_distance_score a b M =
      color_distance_score (a.take (min a.length b.length))
        (b.take (min a.length b.length)) M := by
  have hzip : ∀ (x y : List ℝ), x.zip y =
      (x.take (min x.length y.length)).zip (y.take (min x.length y.length)) := by
    intro x
    induction x with
    | nil => intro y; simp
    | cons hx tx ih =>
      intro y
      cases y with
      | nil => simp
      | cons hy ty =>
        simp only [List.zip_cons_cons, List.length_cons]
        have : min (tx.length + 1) (ty.length + 1) = min tx.length ty.length + 1 := by
          omega
        rw [this]
        simp only [List.take_succ_cons, List.zip_cons_cons]
        rw [← ih ty]
  have hd : calculate_distance_to_target a b =
      calculate_distance_to_target (a.take (min a.length b.length))
        (b.take (min a.length b.length)) := by
    unfold calculate_distance_to_target
    rw [← hzip a b]
  refine ⟨hd, ?_, ?_⟩
  · unfold within_tolerance
    rw [hd]
  · unfold color_distance_score
    rw [hd]

/-- Working state of `generate_diverse_candidates`: the accumulated pool
`candidates`, the `seen` set of tuples, and the signed countdown
`n_to_generate` (an integer: the Python counter goes below zero). -/
structure GDCState where
  candidates : List (List Nat)
  seen : Finset (List Nat)
  need : Int

/-- One iteration of the single-dye-extremes phase of
`generate_diverse_candidates` (src/color_learning.py lines 50-57): dye `i`
at `max_volume`, everything else zero; accepted if unseen.  This phase has
no early return. -/
def gdc_phase1_step (dye_count max_volume : Nat) (s : GDCState) (i : Nat) : GDCState :=
  let candidate := (List.replicate dye_count 0).set i max_volume
  if candidate ∈ s.seen then s
  else ⟨s.candidates ++ [candidate], insert candidate s.seen, s.need - 1⟩

/-- The pairwise split ratios 0.2, 0.5, 0.8 of line 62, as exact
numerator/denominator pairs (the float arithmetic of the source is
idealized as exact rationals). -/
def gdc_ratio_list : List (Nat × Nat) := [(1, 5), (1, 2), (4, 5)]

/-- A pairwise candidate (lines 63-65): dye `i` receives
`int(max_volume * ratio / step) * step`, dye `j` the remainder.  With
`ratio = p / q`, `int(...)` truncates the non-negative rational
`max_volume * p / (q * step)`, which is the natural-number division
`(max_volume * p) / (q * step)`. -/
def gdc_pair_candidate (dye_count max_volume step : Nat) (i j : Nat) (q : Nat × Nat) : List Nat :=
  let ci := max_volume * q.1 / (q.2 * step) * step
  ((List.replicate dye_count 0).set i ci).set j (max_volume - ci)

/-- The pairwise-phase candidates in Python loop order:
`for i in range(dye_count): for j in range(i+1, dye_count): for ratio in
[0.2, 0.5, 0.8]` (lines 60-62). -/
def gdc_pair_list (dye_count max_volume step : Nat) : List (List Nat) :=
  (List.range dye_count).flatMap (fun i =>
    ((List.range dye_count).filter (fun j => i < j)).flatMap (fun j =>
      gdc_ratio_list.map (fun q => gdc_pair_candidate dye_count max_volume step i j q)))

/-- A triple candidate (lines 78-81): dyes `i` and `j` receive
`int(max_volume / 3)` each and dye `k` the remainder. -/
def gdc_triple_candidate (dye_count max_volume : Nat) (i j k : Nat) : List Nat :=
  let c := max_volume / 3
  (((List.replicate dye_count 0).set i c).set j c).set k (max_volume - c - c)

/-- The triple-phase candidates in Python loop order (lines 75-77). -/
def gdc_triple_list (dye_count max_volume : Nat) : List (List Nat) :=
  (List.range dye_count).flatMap (fun i =>
    ((List.range dye_count).filter (fun j => i < j)).flatMap (fun j =>
      ((List.range dye_count).filter (fun k => j < k)).map (fun k =>
        gdc_triple_candidate dye_count max_volume i j k)))

/-- The shared body of the pairwise and triple phases (lines 59-88):
walk the candidate list in order, accept unseen candidates, and return the
pool (`Sum.inr`) as soon as `n_to_generate` drops to 0 or below; `Sum.inl`
is falling through to the next phase. -/
def gdc_phase_run : List (List Nat) → GDCState → GDCState ⊕ List (List Nat)
  | [], s => Sum.inl s
  | c :: rest, s =>
    if c ∈ s.seen then gdc_phase_run rest s
    else
      let s' : GDCState := ⟨s.candidates ++ [c], insert c s.seen, s.need - 1⟩
      if s'.need ≤ 0 then Sum.inr s'.candidates
      else gdc_phase_run rest s'

/-- The randomized fill loop (lines 90-98): guarded by
`n_to_generate > 0 and attempts < n_to_generate * 5`, re-checked each
iteration.  `fuel` is structural recursion fuel; `n_samples * 5 + 1` is
always enough, since the measure `need * 5 - attempts` strictly
decreases. -/
def gdc_fill (dye_count max_volume step : Nat) (r : Nat → RandOracle) :
    Nat → Nat → Nat → GDCState → List (List Nat)
  | 0, _, _, s => s.candidates
  | fuel + 1, k, attempts, s =>
    if 0 < s.need ∧ (attempts : Int) < s.need * 5 then
      let candidate := random_combination dye_count step max_volume (r k)
      if candidate ∈ s.seen then
        gdc_fill dye_count max_volume step r fuel (k + 1) (attempts + 1) s
      else
        gdc_fill dye_count max_volume step r fuel (k + 1) (attempts + 1)
          ⟨s.candidates ++ [candidate], insert candidate s.seen, s.need - 1⟩
    else s.candidates

/-- `generate_diverse_candidates(dye_count, n_samples, existing_experiments,
max_volume, step)` from src/color_learning.py lines 45-100.  The random
stream `r` supplies one oracle per `random_combination` call of the fill
phase.  (The `existing_experiments or []` None-guard is modelled by taking
the list directly.) -/
def generate_diverse_candidates (dye_count n_samples : Nat)
    (existing_experiments : List (List Nat)) (max_volume step : Nat)
    (r : Nat → RandOracle) : List (List Nat) :=
  let s0 : GDCState := ⟨[], existing_experiments.toFinset, (n_samples : Int)⟩
  let s1 := (List.range dye_count).foldl (gdc_phase1_step dye_count max_volume) s0
  Sum.elim
    (fun s2 =>
      Sum.elim
        (fun s3 => gdc_fill dye_count max_volume step r (n_samples * 5 + 1) 0 0 s3)
        id
        (if 3 ≤ dye_count then gdc_phase_run (gdc_triple_list dye_count max_volume) s2
         else Sum.inl s2))
    id
    (if 2 ≤ dye_count then gdc_phase_run (gdc_pair_list dye_count max_volume step) s1
     else Sum.inl s1)

/-- Deduplication invariant of `generate_diverse_candidates`: the pool has
no duplicates, everything in the pool is in `seen`, everything in
`existing_experiments` is in `seen`, and nothing in the pool comes from
`existing_experiments`. -/
def GDCInv (existing : List (List Nat)) (s : GDCState) : Prop :=
  s.candidates.Nodup ∧ (∀ c ∈ s.candidates, c ∈ s.seen) ∧
  (∀ e ∈ existing, e ∈ s.seen) ∧ (∀ c ∈ s.candidates, c ∉ existing)

/-- Accepting an unseen candidate preserves the deduplication invariant. -/
lemma gdc_accept_inv (existing : List (List Nat)) (s : GDCState) (c : List Nat)
    (hJ : GDCInv existing s) (hc : c ∉ s.seen) :
    GDCInv existing ⟨s.candidates ++ [c], insert c s.seen, s.need - 1⟩ := by
  obtain ⟨hnd, hsub, hex, hnotex⟩ := hJ
  have hcnot : c ∉ s.candidates := fun h => hc (hsub c h)
  refine ⟨?_, ?_, ?_, ?_⟩
  · rw [List.nodup_append]
    exact ⟨hnd, List.nodup_singleton c, by
      intro x hx hx'
      rw [List.mem_singleton] at hx'
      subst hx'
      exact hcnot hx⟩
  · intro x hx
    rcases List.mem_append.mp hx with h | h
    · exact Finset.mem_insert_of_mem (hsub x h)
    · rw [List.mem_singleton] at h; subst h; exact Finset.mem_insert_self _ _
  · intro e he
    exact Finset.mem_insert_of_mem (hex e he)
  · intro x hx
    rcases List.mem_append.mp hx with h | h
    · exact hnotex x h
    · rw [List.mem_singleton] at h
      subst h
      intro hmem
      exact hc (hex x hmem)

/-- The single-dye phase preserves the deduplication invariant. -/
lemma gdc_phase1_inv (dye_count max_volume : Nat) (existing : List (List Nat)) :
    ∀ (L : List Nat) (s : GDCState), GDCInv existing s →
      GDCInv existing (L.foldl (gdc_phase1_step dye_count max_volume) s) := by
  intro L
  induction L with
  | nil => intro s h; exact h
  | cons i L ih =>
    intro s h
    rw [List.foldl_cons]
    apply ih
    unfold gdc_phase1_step
    by_cases hseen : (List.replicate dye_count 0).set i max_volume ∈ s.seen
    · rw [if_pos hseen]; exact h
    · rw [if_neg hseen]; exact gdc_accept_inv existing s _ h hseen

/-- The single-dye phase preserves the count bookkeeping
`candidates.length + n_to_generate = n_samples` and adds at most one
candidate per dye. -/
lemma gdc_phase1_count (dye_count max_volume : Nat) (n : Int) :
    ∀ (L : List Nat) (s : GDCState), (s.candidates.length : Int) + s.need = n →
      ((L.foldl (gdc_phase1_step dye_count max_volume) s).candidates.length : Int) +
          (L.foldl (gdc_phase1_step dye_count max_volume) s).need = n ∧
        (L.foldl (gdc_phase1_step dye_count max_volume) s).candidates.length ≤
          s.candidates.length + L.length := by
  intro L
  induction L with
  | nil => intro s h; exact ⟨h, Nat.le_refl _⟩
  | cons i L ih =>
    intro s h
    rw [List.foldl_cons]
    unfold gdc_phase1_step
    by_cases hseen : (List.replicate dye_count 0).set i max_volume ∈ s.seen
    · rw [if_pos hseen]
      obtain ⟨h1, h2⟩ := ih s h
      exact ⟨h1, by simpa using Nat.le_succ_of_le h2⟩
    · rw [if_neg hseen]
      obtain ⟨h1, h2⟩ := ih ⟨s.candidates ++ [(List.replicate dye_count 0).set i max_volume],
        insert ((List.replicate dye_count 0).set i max_volume) s.seen, s.need - 1⟩
        (by simp; omega)
      refine ⟨h1, ?_⟩
      simp only [List.length_append, List.length_singleton] at h2
      simpa using Nat.le_trans h2 (by omega)

/-- Specification of a phase that falls through (`Sum.inl`): the count
bookkeeping is preserved, a phase entered with a non-positive counter does
nothing, a positive counter stays positive, and the deduplication
invariant is preserved. -/
lemma gdc_phase_run_inl (n : Int) (existing : List (List Nat)) :
    ∀ (l : List (List Nat)) (s s' : GDCState), gdc_phase_run l s = Sum.inl s' →
      ((s.candidates.length : Int) + s.need = n →
        ((s'.candidates.length : Int) + s'.need = n ∧
         (s.need ≤ 0 → s' = s) ∧ (0 < s.need → 0 < s'.need))) ∧
      (GDCInv existing s → GDCInv existing s') := by
  intro l
  induction l with
  | nil =>
    intro s s' h
    rw [gdc_phase_run] at h
    cases h
    exact ⟨fun h1 => ⟨h1, fun _ => rfl, fun h2 => h2⟩, fun h2 => h2⟩
  | cons c rest ih =>
    intro s s' h
    rw [gdc_phase_run] at h
    by_cases hseen : c ∈ s.seen
    · rw [if_pos hseen] at h
      exact ih s s' h
    · rw [if_neg hseen] at h
      by_cases hneed : (s.need - 1 : Int) ≤ 0
      · rw [if_pos hneed] at h
        cases h
      · rw [if_neg hneed] at h
        obtain ⟨hcount, hinv⟩ := ih _ s' h
        constructor
        · intro h1
          obtain ⟨h2, _, h4⟩ := hcount (by simp; omega)
          refine ⟨h2, ?_, ?_⟩
          · intro h5
            exfalso
            omega
          · intro _
            exact h4 (by simp; omega)
        · intro hJ
          exact hinv (gdc_accept_inv existing s c hJ hseen)

/-- Specification of a phase that early-returns (`Sum.inr`): if the phase
was entered with a non-positive counter the returned pool has exactly one
extra candidate; with a positive counter it has exactly `n_samples`
candidates.  The returned pool satisfies the deduplication guarantees. -/
lemma gdc_phase_run_inr (n : Int) (existing : List (List Nat)) :
    ∀ (l : List (List Nat)) (s : GDCState) (c : List (List Nat)),
      gdc_phase_run l s = Sum.inr c →
      ((s.candidates.length : Int) + s.need = n →
        ((s.need ≤ 0 → c.length = s.candidates.length + 1) ∧
         (0 < s.need → (c.length : Int) = n))) ∧
      (GDCInv existing s → c.Nodup ∧ ∀ x ∈ c, x ∉ existing) := by
  intro l
  induction l with
  | nil =>
    intro s c h
    rw [gdc_phase_run] at h
    cases h
  | cons d rest ih =>
    intro s c h
    rw [gdc_phase_run] at h
    by_cases hseen : d ∈ s.seen
    · rw [if_pos hseen] at h
      exact ih s c h
    · rw [if_neg hseen] at h
      by_cases hneed : (s.need - 1 : Int) ≤ 0
      · rw [if_pos hneed] at h
        cases h
        constructor
        · intro h1
          constructor
          · intro _; simp
          · intro h2
            have : s.need = 1 := by omega
            simp
            omega
        · intro hJ
          have := gdc_accept_inv existing s d hJ hseen
          obtain ⟨hnd, _, _, hnot⟩ := this
          exact ⟨hnd, hnot⟩
      · rw [if_neg hneed] at h
        obtain ⟨hcount, hinv⟩ := ih _ c h
        constructor
        · intro h1
          obtain ⟨h2, h3⟩ := hcount (by simp; omega)
          constructor
          · intro h4
            exfalso
            simp at hneed
            omega
          · intro _
            exact h3 (by simp; omega)
        · intro hJ
          exact hinv (gdc_accept_inv existing s d hJ hseen)

/-- The randomized fill keeps the pool within `n_samples` (never appends
once the counter is exhausted). -/
lemma gdc_fill_len (n : Int) (dye_count max_volume step : Nat) (r : Nat → RandOracle) :
    ∀ (fuel k attempts : Nat) (s : GDCState),
      (s.candidates.length : Int) + s.need = n →
      ((gdc_fill dye_count max_volume step r fuel k attempts s).length : Int) ≤
        max n (s.candidates.length : Int) := by
  intro fuel
  induction fuel with
  | zero =>
    intro k attempts s h
    rw [gdc_fill]
    exact le_max_of_le_right (le_refl _)
  | succ fuel ih =>
    intro k attempts s h
    rw [gdc_fill]
    by_cases hg : 0 < s.need ∧ (attempts : Int) < s.need * 5
    · rw [if_pos hg]
      by_cases hseen : random_combination dye_count step max_volume (r k) ∈ s.seen
      · rw [if_pos hseen]
        exact ih (k + 1) (attempts + 1) s h
      · rw [if_neg hseen]
        have := ih (k + 1) (attempts + 1)
          ⟨s.candidates ++ [random_combination dye_count step max_volume (r k)],
            insert (random_combination dye_count step max_volume (r k)) s.seen,
            s.need - 1⟩ (by simp; omega)
        simp only [List.length_append, List.length_singleton] at this
        have hlt : ((s.candidates.length : Int) + 1) ≤ n := by omega
        calc ((gdc_fill dye_count max_volume step r fuel (k + 1) (attempts + 1)
            ⟨s.candidates ++ [random_combination dye_count step max_volume (r k)],
              insert (random_combination dye_count step max_volume (r k)) s.seen,
              s.need - 1⟩).length : Int)
            ≤ max n ((s.candidates.length : Int) + 1) := by
              have h' := this
              simpa using h'
          _ ≤ max n (s.candidates.length : Int) := by
              rw [max_eq_left hlt]
              exact le_max_left _ _
    · rw [if_neg hg]
      exact le_max_of_le_right (le_refl _)

/-- The randomized fill preserves the deduplication invariant. -/
lemma gdc_fill_inv (existing : List (List Nat)) (dye_count max_volume step : Nat)
    (r : Nat → RandOracle) :
    ∀ (fuel k attempts : Nat) (s : GDCState), GDCInv existing s →
      (gdc_fill dye_count max_volume step r fuel k attempts s).Nodup ∧
      ∀ x ∈ gdc_fill dye_count max_volume step r fuel k attempts s, x ∉ existing := by
  intro fuel
  induction fuel with
  | zero =>
    intro k attempts s h
    rw [gdc_fill]
    exact ⟨h.1, h.2.2.2⟩
  | succ fuel ih =>
    intro k attempts s h
    rw [gdc_fill]
    by_cases hg : 0 < s.need ∧ (attempts : Int) < s.need * 5
    · rw [if_pos hg]
      by_cases hseen : random_combination dye_count step max_volume (r k) ∈ s.seen
      · rw [if_pos hseen]
        exact ih (k + 1) (attempts + 1) s h
      · rw [if_neg hseen]
        exact ih (k + 1) (attempts + 1) _ (gdc_accept_inv existing s _ h hseen)
    · rw [if_neg hg]
      exact ⟨h.1, h.2.2.2⟩

/-- Bound for the fill phase: starting from a state whose pool is below
`dye_count` or below `n_samples`, the final pool stays within
`max n_samples (dye_count + 1)`. -/
lemma gdc_fill_bound (dye_count n_samples max_volume step : Nat) (r : Nat → RandOracle)
    (fuel k attempts : Nat) (s : GDCState)
    (hc : (s.candidates.length : Int) + s.need = (n_samples : Int))
    (hD : s.candidates.length ≤ dye_count ∨ (s.candidates.length : Int) < (n_samples : Int)) :
    (gdc_fill dye_count max_volume step r fuel k attempts s).length ≤
      max n_samples (dye_count + 1) := by
  have hfill := gdc_fill_len (n_samples : Int) dye_count max_volume step r fuel k attempts s hc
  apply le_max_iff.mpr
  rcases le_max_iff.mp hfill with h | h
  · exact Or.inl (by omega)
  · rcases hD with hD | hD
    · exact Or.inr (by omega)
    · exact Or.inl (by omega)

/-- Bound for a phase that early-returns. -/
lemma gdc_inr_bound (n_samples dye_count : Nat) (l : List (List Nat)) (s : GDCState)
    (cands : List (List Nat)) (h : gdc_phase_run l s = Sum.inr cands)
    (hc : (s.candidates.length : Int) + s.need = (n_samples : Int))
    (hD : s.candidates.length ≤ dye_count ∨ (s.candidates.length : Int) < (n_samples : Int)) :
    cands.length ≤ max n_samples (dye_count + 1) := by
  obtain ⟨hcount, _⟩ := gdc_phase_run_inr (n_samples : Int) [] l s cands h
  obtain ⟨hle, hpos⟩ := hcount hc
  by_cases hneed : s.need ≤ 0
  · rcases hD with hD | hD
    · exact le_max_iff.mpr (Or.inr (by have := hle hneed; omega))
    · exfalso; omega
  · exact le_max_iff.mpr (Or.inl (by have := hpos (by omega); omega))

/-- A phase that falls through keeps the count bookkeeping and keeps the
pool below `dye_count` or below `n_samples`. -/
lemma gdc_inl_next (n_samples dye_count : Nat) (l : List (List Nat)) (s s' : GDCState)
    (h : gdc_phase_run l s = Sum.inl s')
    (hc : (s.candidates.length : Int) + s.need = (n_samples : Int))
    (hD : s.candidates.length ≤ dye_count ∨ (s.candidates.length : Int) < (n_samples : Int)) :
    ((s'.candidates.length : Int) + s'.need = (n_samples : Int)) ∧
    (s'.candidates.length ≤ dye_count ∨ (s'.candidates.length : Int) < (n_samples : Int)) := by
  obtain ⟨hcount, _⟩ := gdc_phase_run_inl (n_samples : Int) [] l s s' h
  obtain ⟨hc', heq, hpos⟩ := hcount hc
  refine ⟨hc', ?_⟩
  by_cases hneed : s.need ≤ 0
  · rw [heq hneed]; exact hD
  · have := hpos (by omega)
    exact Or.inr (by omega)

/-- The pairwise phase, triple phase and randomized fill, entered from any
state (the pool after the single-dye phase), keep the pool within
`max n_samples (dye_count + 1)`. -/
lemma gdc_tail_len (dye_count n_samples max_volume step : Nat) (r : Nat → RandOracle)
    (s1 : GDCState)
    (hc1 : (s1.candidates.length : Int) + s1.need = (n_samples : Int))
    (hl1 : s1.candidates.length ≤ dye_count) :
    (Sum.elim
      (fun s2 =>
        Sum.elim
          (fun s3 => gdc_fill dye_count max_volume step r (n_samples * 5 + 1) 0 0 s3)
          id
          (if 3 ≤ dye_count then gdc_phase_run (gdc_triple_list dye_count max_volume) s2
           else Sum.inl s2))
      id
      (if 2 ≤ dye_count then gdc_phase_run (gdc_pair_list dye_count max_volume step) s1
       else Sum.inl s1)).length ≤ max n_samples (dye_count + 1) := by
  have htail2 : ∀ s2 : GDCState,
      (s2.candidates.length : Int) + s2.need = (n_samples : Int) →
      (s2.candidates.length ≤ dye_count ∨
        (s2.candidates.length : Int) < (n_samples : Int)) →
      (Sum.elim
        (fun s3 => gdc_fill dye_count max_volume step r (n_samples * 5 + 1) 0 0 s3)
        id
        (if 3 ≤ dye_count then gdc_phase_run (gdc_triple_list dye_count max_volume) s2
         else Sum.inl s2)).length ≤ max n_samples (dye_count + 1) := by
    intro s2 hc2 hD2
    by_cases h3 : 3 ≤ dye_count
    · rw [if_pos h3]
      cases hE3 : gdc_phase_run (gdc_triple_list dye_count max_volume) s2 with
      | inl s3 =>
        rw [Sum.elim_inl]
        obtain ⟨hc3, hD3⟩ := gdc_inl_next n_samples dye_count _ s2 s3 hE3 hc2 hD2
        exact gdc_fill_bound dye_count n_samples max_volume step r _ 0 0 s3 hc3 hD3
      | inr cands =>
        rw [Sum.elim_inr, id_eq]
        exact gdc_inr_bound n_samples dye_count _ s2 cands hE3 hc2 hD2
    · rw [if_neg h3, Sum.elim_inl]
      exact gdc_fill_bound dye_count n_samples max_volume step r _ 0 0 s2 hc2 hD2
  by_cases h2 : 2 ≤ dye_count
  · rw [if_pos h2]
    cases hE : gdc_phase_run (gdc_pair_list dye_count max_volume step) s1 with
    | inl s2 =>
      rw [Sum.elim_inl]
      obtain ⟨hc2, hD2⟩ := gdc_inl_next n_samples dye_count _ s1 s2 hE hc1 (Or.inl hl1)
      exact htail2 s2 hc2 hD2
    | inr cands =>
      rw [Sum.elim_inr, id_eq]
      exact gdc_inr_bound n_samples dye_count _ s1 cands hE hc1 (Or.inl hl1)
  · rw [if_neg h2, Sum.elim_inl]
    exact htail2 s1 hc1 (Or.inl hl1)

/-- C4 (amended): `generate_diverse_candidates` returns at most
`max n_samples (dye_count + 1)` mixtures.  (The single-dye phase performs
no early-return check, so when `n_samples` is smaller than the number of
accepted single-dye extremes the pool overshoots `n_samples`; the
pairwise, triple and randomized phases return as soon as the count is
reached.) -/
theorem claim_C4 (dye_count n_samples : Nat) (existing_experiments : List (List Nat))
    (max_volume step : Nat) (r : Nat → RandOracle) :
    (generate_diverse_candidates dye_count n_samples existing_experiments
      max_volume step r).length ≤ max n_samples (dye_count + 1) := by
  obtain ⟨hc1, hl1⟩ := gdc_phase1_count dye_count max_volume (n_samples : Int)
    (List.range dye_count) ⟨[], existing_experiments.toFinset, (n_samples : Int)⟩
    (by simp)
  exact gdc_tail_len dye_count n_samples max_volume step r _ hc1 (by simpa using hl1)

/-- Counterexample to C4 as stated: with `dye_count = 3`, `n_samples = 1`,
no prior experiments, `max_volume = 200`, `step = 1`, the single-dye phase
accepts three mixtures without checking the budget and the pairwise phase
accepts one more before its check fires, so 4 > 1 mixtures are returned
(deterministically: the randomized fill is never reached). -/
theorem claim_C4_counterexample :
    (generate_diverse_candidates 3 1 [] 200 1
      (fun _ => ⟨0, fun _ => true, fun _ => 0, 0⟩)).length = 4 ∧
    ¬ ((generate_diverse_candidates 3 1 [] 200 1
      (fun _ => ⟨0, fun _ => true, fun _ => 0, 0⟩)).length ≤ 1) := by
  constructor
  · rfl
  · decide

/-- The pairwise phase, triple phase and randomized fill preserve the
deduplication guarantees. -/
lemma gdc_tail_inv (existing : List (List Nat)) (dye_count n_samples max_volume step : Nat)
    (r : Nat → RandOracle) (s1 : GDCState) (hJ1 : GDCInv existing s1) :
    (Sum.elim
      (fun s2 =>
        Sum.elim
          (fun s3 => gdc_fill dye_count max_volume step r (n_samples * 5 + 1) 0 0 s3)
          id
          (if 3 ≤ dye_count then gdc_phase_run (gdc_triple_list dye_count max_volume) s2
           else Sum.inl s2))
      id
      (if 2 ≤ dye_count then gdc_phase_run (gdc_pair_list dye_count max_volume step) s1
       else Sum.inl s1)).Nodup ∧
    ∀ x ∈ (Sum.elim
      (fun s2 =>
        Sum.elim
          (fun s3 => gdc_fill dye_count max_volume step r (n_samples * 5 + 1) 0 0 s3)
          id
          (if 3 ≤ dye_count then gdc_phase_run (gdc_triple_list dye_count max_volume) s2
           else Sum.inl s2))
      id
      (if 2 ≤ dye_count then gdc_phase_run (gdc_pair_list dye_count max_volume step) s1
       else Sum.inl s1)), x ∉ existing := by
  have htail2 : ∀ s2 : GDCState, GDCInv existing s2 →
      (Sum.elim
        (fun s3 => gdc_fill dye_count max_volume step r (n_samples * 5 + 1) 0 0 s3)
        id
        (if 3 ≤ dye_count then gdc_phase_run (gdc_triple_list dye_count max_volume) s2
         else Sum.inl s2)).Nodup ∧
      ∀ x ∈ (Sum.elim
        (fun s3 => gdc_fill dye_count max_volume step r (n_samples * 5 + 1) 0 0 s3)
        id
        (if 3 ≤ dye_count then gdc_phase_run (gdc_triple_list dye_count max_volume) s2
         else Sum.inl s2)), x ∉ existing := by
    intro s2 hJ2
    by_cases h3 : 3 ≤ dye_count
    · rw [if_pos h3]
      cases hE3 : gdc_phase_run (gdc_triple_list dye_count max_volume) s2 with
      | inl s3 =>
        rw [Sum.elim_inl]
        exact gdc_fill_inv existing dye_count max_volume step r _ 0 0 s3
          ((gdc_phase_run_inl 0 existing _ s2 s3 hE3).2 hJ2)
      | inr cands =>
        rw [Sum.elim_inr, id_eq]
        exact (gdc_phase_run_inr 0 existing _ s2 cands hE3).2 hJ2
    · rw [if_neg h3, Sum.elim_inl]
      exact gdc_fill_inv existing dye_count max_volume step r _ 0 0 s2 hJ2
  by_cases h2 : 2 ≤ dye_count
  · rw [if_pos h2]
    cases hE : gdc_phase_run (gdc_pair_list dye_count max_volume step) s1 with
    | inl s2 =>
      rw [Sum.elim_inl]
      exact htail2 s2 ((gdc_phase_run_inl 0 existing _ s1 s2 hE).2 hJ1)
    | inr cands =>
      rw [Sum.elim_inr, id_eq]
      exact (gdc_phase_run_inr 0 existing _ s1 cands hE).2 hJ1
  · rw [if_neg h2, Sum.elim_inl]
    exact htail2 s1 hJ1

/-- C5: `generate_diverse_candidates` never returns two identical mixtures
and never returns a mixture present in `existing_experiments`. -/
theorem claim_C5 (dye_count n_samples : Nat) (existing_experiments : List (List Nat))
    (max_volume step : Nat) (r : Nat → RandOracle) :
    (generate_diverse_candidates dye_count n_samples existing_experiments
      max_volume step r).Nodup ∧
    ∀ x ∈ generate_diverse_candidates dye_count n_samples existing_experiments
      max_volume step r, x ∉ existing_experiments := by
  have hJ0 : GDCInv existing_experiments
      ⟨[], existing_experiments.toFinset, (n_samples : Int)⟩ := by
    refine ⟨List.nodup_nil, ?_, ?_, ?_⟩
    · intro c hc; cases hc
    · intro e he; exact List.mem_toFinset.mpr he
    · intro c hc; cases hc
  have hJ1 := gdc_phase1_inv dye_count max_volume existing_experiments
    (List.range dye_count) _ hJ0
  exact gdc_tail_inv existing_experiments dye_count n_samples max_volume step r _ hJ1


/-- `[i for i, v in enumerate(candidate) if v > 0]`
(src/color_learning.py line 111). -/
def nonzero_indices (c : List Nat) : List Nat :=
  (c.enum.filter (fun p => 0 < p.2)).map Prod.fst

/-- `nonzero_indices` counts exactly the strictly positive entries. -/
lemma nonzero_indices_length (c : List Nat) :
    (nonzero_indices c).length = (c.filter (fun v => 0 < v)).length := by
  unfold nonzero_indices
  rw [List.length_map]
  have key : ∀ (n : Nat) (l : List Nat),
      ((List.enumFrom n l).filter (fun p => 0 < p.2)).length =
        (l.filter (fun v => 0 < v)).length := by
    intro n l
    induction l generalizing n with
    | nil => rfl
    | cons a t ih =>
      rw [List.enumFrom_cons]
      by_cases ha : 0 < a
      · rw [List.filter_cons_of_pos (by simpa using ha),
          List.filter_cons_of_pos (by simpa using ha)]
        simp only [List.length_cons]
        rw [ih (n + 1)]
      · rw [List.filter_cons_of_neg (by simpa using ha),
          List.filter_cons_of_neg (by simpa using ha)]
        exact ih (n + 1)
  exact key 0 c

/-- The accept step of the coverage-greedy loop (src/color_learning.py
lines 116-120): accept the candidate when it covers a new dye (or the
pool is empty) and is not already pooled. -/
def gdcc_accept (candidate : List Nat) (combos : List (List Nat)) (used : Finset Nat) :
    List (List Nat) × Finset Nat :=
  if (nonzero_indices candidate).toFinset \ used ≠ ∅ ∨ combos.length = 0 then
    if candidate ∈ combos then (combos, used)
    else (combos ++ [candidate], used ∪ (nonzero_indices candidate).toFinset)
  else (combos, used)

/-- The coverage-greedy first loop of
`generate_diverse_covering_combinations` (src/color_learning.py lines
104-123).  `fuel` counts remaining attempts (initially 1000), `k` indexes
the random stream.  A candidate with fewer than two positive entries is
skipped (`continue`, bypassing the coverage break); the loop breaks once
every dye is covered. -/
def gdcc_loop1 (dye_count n_combinations max_volume step : Nat) (r : Nat → RandOracle) :
    Nat → Nat → List (List Nat) → Finset Nat → List (List Nat) × Finset Nat × Nat
  | 0, k, combos, used => (combos, used, k)
  | fuel + 1, k, combos, used =>
    if n_combinations ≤ combos.length then (combos, used, k)
    else
      if (nonzero_indices (random_combination dye_count step max_volume (r k))).length < 2 then
        gdcc_loop1 dye_count n_combinations max_volume step r fuel (k + 1) combos used
      else
        if (gdcc_accept (random_combination dye_count step max_volume (r k)) combos used).2.card
            = dye_count then
          ((gdcc_accept (random_combination dye_count step max_volume (r k)) combos used).1,
           (gdcc_accept (random_combination dye_count step max_volume (r k)) combos used).2,
           k + 1)
        else
          gdcc_loop1 dye_count n_combinations max_volume step r fuel (k + 1)
            (gdcc_accept (random_combination dye_count step max_volume (r k)) combos used).1
            (gdcc_accept (random_combination dye_count step max_volume (r k)) combos used).2

/-- The unconditional second loop of
`generate_diverse_covering_combinations` (lines 125-131): keep drawing
random mixtures with at least two positive entries, deduplicated against
the pool, until `n_combinations` is reached.  `none` models fuel
exhaustion: the Python loop has no bound and can diverge. -/
def gdcc_loop2 (dye_count n_combinations max_volume step : Nat) (r : Nat → RandOracle) :
    Nat → Nat → List (List Nat) → Option (List (List Nat))
  | 0, _, combos => if n_combinations ≤ combos.length then some combos else none
  | fuel + 1, k, combos =>
    if n_combinations ≤ combos.length then some combos
    else
      if ((random_combination dye_count step max_volume (r k)).filter
          (fun v => 0 < v)).length < 2 then
        gdcc_loop2 dye_count n_combinations max_volume step r fuel (k + 1) combos
      else if random_combination dye_count step max_volume (r k) ∈ combos then
        gdcc_loop2 dye_count n_combinations max_volume step r fuel (k + 1) combos
      else
        gdcc_loop2 dye_count n_combinations max_volume step r fuel (k + 1)
          (combos ++ [random_combination dye_count step max_volume (r k)])

/-- `generate_diverse_covering_combinations(dye_count, n_combinations,
max_volume, step)` from src/color_learning.py lines 102-132, with a random
stream and fuel for the unbounded second loop. -/
def generate_diverse_covering_combinations (dye_count n_combinations max_volume step : Nat)
    (r : Nat → RandOracle) (fuel : Nat) : Option (List (List Nat)) :=
  gdcc_loop2 dye_count n_combinations max_volume step r fuel
    (gdcc_loop1 dye_count n_combinations max_volume step r 1000 0 [] ∅).2.2
    (gdcc_loop1 dye_count n_combinations max_volume step r 1000 0 [] ∅).1

/-- The accept step preserves the two-positive-entries property and the
pool-size bound. -/
lemma gdcc_accept_spec (n_combinations : Nat) (candidate : List Nat)
    (combos : List (List Nat)) (used : Finset Nat)
    (h1 : ∀ c ∈ combos, 2 ≤ (c.filter (fun v => 0 < v)).length)
    (h2 : combos.length < n_combinations)
    (hnz : ¬ (nonzero_indices candidate).length < 2) :
    (∀ c ∈ (gdcc_accept candidate combos used).1,
      2 ≤ (c.filter (fun v => 0 < v)).length) ∧
    (gdcc_accept candidate combos used).1.length ≤ n_combinations := by
  unfold gdcc_accept
  by_cases hcov : (nonzero_indices candidate).toFinset \ used ≠ ∅ ∨ combos.length = 0
  · rw [if_pos hcov]
    by_cases hdup : candidate ∈ combos
    · rw [if_pos hdup]
      exact ⟨h1, Nat.le_of_lt h2⟩
    · rw [if_neg hdup]
      constructor
      · intro c hc
        rcases List.mem_append.mp hc with h | h
        · exact h1 c h
        · rw [List.mem_singleton] at h
          subst h
          rw [← nonzero_indices_length]
          omega
      · simp only [List.length_append, List.length_singleton]
        omega
  · rw [if_neg hcov]
    exact ⟨h1, Nat.le_of_lt h2⟩

/-- The first loop preserves: every pooled mixture has at least two
positive entries, and the pool size never exceeds `n_combinations`. -/
lemma gdcc_loop1_spec (dye_count n_combinations max_volume step : Nat)
    (r : Nat → RandOracle) :
    ∀ (fuel k : Nat) (combos : List (List Nat)) (used : Finset Nat),
      (∀ c ∈ combos, 2 ≤ (c.filter (fun v => 0 < v)).length) →
      combos.length ≤ n_combinations →
      (∀ c ∈ (gdcc_loop1 dye_count n_combinations max_volume step r fuel k combos used).1,
        2 ≤ (c.filter (fun v => 0 < v)).length) ∧
      (gdcc_loop1 dye_count n_combinations max_volume step r fuel k combos used).1.length ≤
        n_combinations := by
  intro fuel
  induction fuel with
  | zero => intro k combos used h1 h2; rw [gdcc_loop1]; exact ⟨h1, h2⟩
  | succ fuel ih =>
    intro k combos used h1 h2
    rw [gdcc_loop1]
    by_cases hfull : n_combinations ≤ combos.length
    · rw [if_pos hfull]; exact ⟨h1, h2⟩
    · rw [if_neg hfull]
      by_cases hnz : (nonzero_indices
          (random_combination dye_count step max_volume (r k))).length < 2
      · rw [if_pos hnz]
        exact ih (k + 1) combos used h1 h2
      · rw [if_neg hnz]
        obtain ⟨ha1, ha2⟩ := gdcc_accept_spec n_combinations
          (random_combination dye_count step max_volume (r k)) combos used h1
          (by omega) hnz
        by_cases hcard : (gdcc_accept (random_combination dye_count step max_volume (r k))
            combos used).2.card = dye_count
        · rw [if_pos hcard]
          exact ⟨ha1, ha2⟩
        · rw [if_neg hcard]
          exact ih (k + 1) _ _ ha1 ha2

/-- The second loop returns (when it returns) a pool of exactly
`n_combinations` mixtures, each with at least two positive entries. -/
lemma gdcc_loop2_spec (dye_count n_combinations max_volume step : Nat)
    (r : Nat → RandOracle) :
    ∀ (fuel k : Nat) (combos res : List (List Nat)),
      (∀ c ∈ combos, 2 ≤ (c.filter (fun v => 0 < v)).length) →
      combos.length ≤ n_combinations →
      gdcc_loop2 dye_count n_combinations max_volume step r fuel k combos = some res →
      res.length = n_combinations ∧
      ∀ c ∈ res, 2 ≤ (c.filter (fun v => 0 < v)).length := by
  intro fuel
  induction fuel with
  | zero =>
    intro k combos res h1 h2 hres
    rw [gdcc_loop2] at hres
    by_cases hfull : n_combinations ≤ combos.length
    · rw [if_pos hfull] at hres
      cases hres
      exact ⟨by omega, h1⟩
    · rw [if_neg hfull] at hres
      cases hres
  | succ fuel ih =>
    intro k combos res h1 h2 hres
    rw [gdcc_loop2] at hres
    by_cases hfull : n_combinations ≤ combos.length
    · rw [if_pos hfull] at hres
      cases hres
      exact ⟨by omega, h1⟩
    · rw [if_neg hfull] at hres
      by_cases hnz : ((random_combination dye_count step max_volume (r k)).filter
          (fun v => 0 < v)).length < 2
      · rw [if_pos hnz] at hres
        exact ih (k + 1) combos res h1 h2 hres
      · rw [if_neg hnz] at hres
        by_cases hdup : random_combination dye_count step max_volume (r k) ∈ combos
        · rw [if_pos hdup] at hres
          exact ih (k + 1) combos res h1 h2 hres
        · rw [if_neg hdup] at hres
          apply ih (k + 1) (combos ++ [random_combination dye_count step max_volume (r k)])
            res _ _ hres
          · intro c hc
            rcases List.mem_append.mp hc with h | h
            · exact h1 c h
            · rw [List.mem_singleton] at h; subst h; omega
          · simp only [List.length_append, List.length_singleton]
            omega

/-- C3 (amended): whenever `generate_diverse_covering_combinations`
terminates, it returns exactly `n_combinations` mixtures, each with at
least two strictly positive volumes.  (Termination is not guaranteed: see
the counterexample.) -/
theorem claim_C3 (dye_count n_combinations max_volume step : Nat)
    (r : Nat → RandOracle) (fuel : Nat) (res : List (List Nat))
    (h : generate_diverse_covering_combinations dye_count n_combinations max_volume step
      r fuel = some res) :
    res.length = n_combinations ∧
    ∀ c ∈ res, 2 ≤ (c.filter (fun v => 0 < v)).length := by
  obtain ⟨h1, h2⟩ := gdcc_loop1_spec dye_count n_combinations max_volume step r 1000 0 [] ∅
    (by intro c hc; cases hc) (by simp)
  exact gdcc_loop2_spec dye_count n_combinations max_volume step r fuel _ _ res h1 h2 h

/-- Witness for C3: with two dyes, budget 2, step 1 and an oracle whose
coin comes up only for the second dye, the very first draw is `[1, 1]`,
covering both dyes, and the call returns `[[1, 1]]`. -/
theorem claim_C3_witness :
    generate_diverse_covering_combinations 2 1 2 1
        (fun _ => ⟨0, fun i => i == 1, fun _ => 1, 0⟩) 1 = some [[1, 1]] ∧
    ([[1, 1]] : List (List Nat)).length = 1 ∧
    ∀ c ∈ ([[1, 1]] : List (List Nat)), 2 ≤ (c.filter (fun v => 0 < v)).length := by
  have h : generate_diverse_covering_combinations 2 1 2 1
      (fun _ => ⟨0, fun i => i == 1, fun _ => 1, 0⟩) 1 = some [[1, 1]] := by decide
  have h2 := claim_C3 2 1 2 1 (fun _ => ⟨0, fun i => i == 1, fun _ => 1, 0⟩) 1 [[1, 1]] h
  exact ⟨h, h2.1, h2.2⟩

/-- Every `random_combination` draw with a zero budget is all-zero. -/
lemma random_combination_zero_budget (dye_count step : Nat) (r : RandOracle) :
    random_combination dye_count step 0 r = List.replicate dye_count 0 := by
  have hloop : ∀ fuel i vols,
      rc_loop step r.coin r.amt i fuel vols (0 : Int) = (vols, (0 : Int)) := by
    intro fuel i vols
    cases fuel with
    | zero => rw [rc_loop]
    | succ fuel => rw [rc_loop, if_pos (by simp)]
  simp [random_combination, hloop]

/-- Counterexample to C3 as stated: with `dye_count = 2 ≥ 2`,
`n_combinations = 1 ≥ 0` and `max_volume = 0`, every random draw is
`[0, 0]`, which never has two positive entries, so the unconditional
second loop never terminates: no amount of fuel produces a result. -/
theorem claim_C3_counterexample :
    ¬ ∃ (fuel : Nat) (res : List (List Nat)),
      generate_diverse_covering_combinations 2 1 0 1
        (fun _ => ⟨0, fun _ => true, fun _ => 0, 0⟩) fuel = some res := by
  set rs : Nat → RandOracle := fun _ => ⟨0, fun _ => true, fun _ => 0, 0⟩ with hrs
  have hcand : ∀ k, random_combination 2 1 0 (rs k) = [0, 0] := by
    intro k
    rw [random_combination_zero_budget]
    rfl
  have hloop1 : ∀ fuel k, gdcc_loop1 2 1 0 1 rs fuel k [] ∅ = ([], ∅, k + fuel) := by
    intro fuel
    induction fuel with
    | zero => intro k; rw [gdcc_loop1]; rfl
    | succ fuel ih =>
      intro k
      rw [gdcc_loop1, if_neg (by simp), hcand k]
      rw [if_pos (by decide)]
      rw [ih (k + 1)]
      have : k + 1 + fuel = k + (fuel + 1) := by omega
      rw [this]
  have hloop2 : ∀ fuel k, gdcc_loop2 2 1 0 1 rs fuel k [] = none := by
    intro fuel
    induction fuel with
    | zero => intro k; rw [gdcc_loop2]; rfl
    | succ fuel ih =>
      intro k
      rw [gdcc_loop2, if_neg (by simp), hcand k]
      rw [if_pos (by decide)]
      exact ih (k + 1)
  rintro ⟨fuel, res, hres⟩
  unfold generate_diverse_covering_combinations at hres
  rw [hloop1 1000 0] at hres
  rw [hloop2 fuel] at hres
  cases hres

/-- A legal outcome of `np.argsort(acq)`: a permutation of all the
indices of `acq` along which the keys ascend weakly.  numpy sorts with
quicksort by default, which is NOT stable, so the order of tied keys in
the result is implementation-defined; the specific permutation therefore
enters the model as an oracle constrained only by this predicate. -/
def IsArgsortOf (acq : List ℚ) (perm : List Nat) : Prop :=
  perm.Perm (List.range acq.length) ∧
  perm.Pairwise (fun i j => acq.getD i 0 ≤ acq.getD j 0)

/-- `candidates[np.argsort(acquisition)[::-1][0]]`
(src/color_learning.py lines 178-179), applied to the index permutation
produced by the argsort oracle. -/
def select_best (candidates : List (List Nat)) (perm : List Nat) : Option (List Nat) :=
  match perm.reverse with
  | [] => none
  | i :: _ => candidates[i]?

/-- The empty-pool fallback loop of `random_forest_optimize_next_experiment`
(src/color_learning.py lines 153-156): draw random mixtures until one is
not in `X_train`; `none` models fuel exhaustion (the Python loop is
unbounded). -/
def rf_find_novel (X_train : List (List Nat)) (dye_count max_volume step : Nat)
    (r : Nat → RandOracle) : Nat → Nat → Option (List Nat)
  | _, 0 => none
  | k, fuel + 1 =>
    if random_combination dye_count step max_volume (r k) ∈ X_train then
      rf_find_novel X_train dye_count max_volume step r (k + 1) fuel
    else some (random_combination dye_count step max_volume (r k))

/-- `random_forest_optimize_next_experiment` from src/color_learning.py
lines 134-183.  The scikit-learn ensemble and numpy are libraries external
to this repository, so their behavior enters as outcome oracles:
`fitOutcome` is the outcome of `rf.fit` (line 145; `Except.error` when it
raises), `predictOutcome` is the outcome of the whole `try` block of lines
160-177 (prediction, tree-variance uncertainty, exploration weighting,
acquisition and proximity bonus), yielding the final acquisition vector on
success, and `argsortO` is `np.argsort` (line 178), whose tie order among
equal keys is implementation-defined and which the claim theorems
constrain to valid ascending sorts via `IsArgsortOf`.  `Y_train`, the
fitness labels and the min-max scaling feed only those oracles and are
absorbed into them; they do not affect control flow.  Each
`random_combination` call site has its own oracle. -/
def random_forest_optimize_next_experiment (X_train : List (List Nat))
    (dye_count max_volume step : Nat)
    (fitOutcome : Except String Unit) (predictOutcome : Except String (List ℚ))
    (argsortO : List ℚ → List Nat)
    (rCold rFit rFallback : RandOracle) (rPool rNovel : Nat → RandOracle)
    (fuel : Nat) : Option (List Nat) :=
  if X_train.length = 0 then some (random_combination dye_count step max_volume rCold)
  else
    match fitOutcome with
    | Except.error _ => some (random_combination dye_count step max_volume rFit)
    | Except.ok _ =>
      if (generate_diverse_candidates dye_count 50 X_train max_volume step rPool).isEmpty then
        rf_find_novel X_train dye_count max_volume step rNovel 0 fuel
      else
        match predictOutcome with
        | Except.error _ => some (random_combination dye_count step max_volume rFallback)
        | Except.ok acq =>
          select_best (generate_diverse_candidates dye_count 50 X_train max_volume step rPool)
            (argsortO acq)

/-- Selection specification: on a non-empty pool whose acquisition vector
has matching length, and for every legal argsort outcome, `select_best`
returns a pooled candidate whose acquisition score is maximal.  Which of
several tied maximal candidates is returned depends on the permutation
the (unstable) sort happened to produce. -/
lemma select_best_spec (candidates : List (List Nat)) (acq : List ℚ) (perm : List Nat)
    (hne : candidates ≠ []) (hlen : acq.length = candidates.length)
    (hperm : IsArgsortOf acq perm) :
    ∃ i, i < candidates.length ∧
      select_best candidates perm = some (candidates.getD i []) ∧
      ∀ j, j < acq.length → acq.getD j 0 ≤ acq.getD i 0 := by
  obtain ⟨hp, hsorted⟩ := hperm
  have hplen : perm.length = acq.length := by
    rw [hp.length_eq, List.length_range]
  have hn0 : 0 < acq.length := by
    rw [hlen]
    exact List.length_pos.mpr hne
  cases hrev : perm.reverse with
  | nil =>
    exfalso
    have hnil : perm = [] := by
      have h2 := congrArg List.reverse hrev
      simpa using h2
    rw [hnil] at hplen
    simp at hplen
    omega
  | cons i t =>
    have hperm_eq : perm = t.reverse ++ [i] := by
      have h2 := congrArg List.reverse hrev
      simpa using h2
    have himem : i ∈ perm := by
      rw [hperm_eq]
      simp
    have hilt : i < acq.length := List.mem_range.mp (hp.mem_iff.mp himem)
    refine ⟨i, by omega, ?_, ?_⟩
    · unfold select_best
      rw [hrev]
      show candidates[i]? = some (candidates.getD i [])
      rw [List.getElem?_eq_getElem (by omega : i < candidates.length),
        List.getD_eq_getElem candidates [] (by omega)]
    · intro j hj
      have hjmem : j ∈ perm := hp.mem_iff.mpr (List.mem_range.mpr hj)
      rw [hperm_eq] at hjmem hsorted
      rw [List.pairwise_append] at hsorted
      rcases List.mem_append.mp hjmem with hjl | hjr
      · exact hsorted.2.2 j hjl i (List.mem_singleton_self i)
      · rw [List.mem_singleton] at hjr
        subst hjr
        exact le_refl _

/-- C6 (amended): when the pool is non-empty and neither the model fit
nor the prediction block raises, the optimizer returns a pooled candidate
whose final acquisition score is maximal, for every legal outcome of the
argsort.  No particular tie-breaking order among equally-scored
candidates is guaranteed: numpy sorts with an unstable quicksort at these
pool sizes, so the permutation among tied keys is implementation-defined.
-/
theorem claim_C6 (X_train : List (List Nat)) (dye_count max_volume step : Nat)
    (acq : List ℚ) (argsortO : List ℚ → List Nat)
    (rCold rFit rFallback : RandOracle) (rPool rNovel : Nat → RandOracle)
    (fuel : Nat) (hX : X_train.length ≠ 0)
    (hne : (generate_diverse_candidates dye_count 50 X_train max_volume step rPool).isEmpty
      = false)
    (hlen : acq.length =
      (generate_diverse_candidates dye_count 50 X_train max_volume step rPool).length)
    (hperm : IsArgsortOf acq (argsortO acq)) :
    ∃ i, i < (generate_diverse_candidates dye_count 50 X_train max_volume step rPool).length ∧
      random_forest_optimize_next_experiment X_train dye_count max_volume step
          (Except.ok ()) (Except.ok acq) argsortO rCold rFit rFallback rPool rNovel fuel =
        some ((generate_diverse_candidates dye_count 50 X_train max_volume step rPool).getD
          i []) ∧
      ∀ j, j < acq.length → acq.getD j 0 ≤ acq.getD i 0 := by
  have hne' : generate_diverse_candidates dye_count 50 X_train max_volume step rPool ≠ [] := by
    intro h
    rw [h] at hne
    simp at hne
  obtain ⟨i, hi, hsel, hmax⟩ := select_best_spec
    (generate_diverse_candidates dye_count 50 X_train max_volume step rPool) acq
    (argsortO acq) hne' hlen hperm
  refine ⟨i, hi, ?_, hmax⟩
  unfold random_forest_optimize_next_experiment
  rw [if_neg hX, if_neg (by rw [hne]; exact Bool.false_ne_true)]
  exact hsel

/-- C7: both exception paths fall back to `random_combination` — when
`rf.fit` raises, and when the prediction/uncertainty/acquisition/proximity
block raises — so no exception from these steps escapes the function
(the embedding is a total function into mixtures). -/
theorem claim_C7 (X_train : List (List Nat)) (dye_count max_volume step : Nat)
    (fitOutcome : Except String Unit) (predictOutcome : Except String (List ℚ))
    (argsortO : List ℚ → List Nat)
    (rCold rFit rFallback : RandOracle) (rPool rNovel : Nat → RandOracle) (fuel : Nat)
    (hX : X_train.length ≠ 0) :
    (∀ e, fitOutcome = Except.error e →
      random_forest_optimize_next_experiment X_train dye_count max_volume step
          fitOutcome predictOutcome argsortO rCold rFit rFallback rPool rNovel fuel =
        some (random_combination dye_count step max_volume rFit)) ∧
    (∀ e, fitOutcome = Except.ok () → predictOutcome = Except.error e →
      (generate_diverse_candidates dye_count 50 X_train max_volume step rPool).isEmpty
        = false →
      random_forest_optimize_next_experiment X_train dye_count max_volume step
          fitOutcome predictOutcome argsortO rCold rFit rFallback rPool rNovel fuel =
        some (random_combination dye_count step max_volume rFallback)) := by
  constructor
  · intro e hfit
    subst hfit
    unfold random_forest_optimize_next_experiment
    rw [if_neg hX]
  · intro e hfit hpred hnem
    subst hfit
    subst hpred
    unfold random_forest_optimize_next_experiment
    rw [if_neg hX, if_neg (by rw [hnem]; exact Bool.false_ne_true)]

/-- Counterexample to C6 as stated: `[0, 1]` is a legal argsort outcome
for the tied scores `[5, 5]` (it is a permutation of the indices and the
keys ascend weakly), and under it the selection of lines 178-179 returns
the SECOND candidate `[0, 1]`, not the first maximal one `[1, 0]` in pool
order.  (This is also what numpy actually produces on a two-element tied
array.)  So the program does not return the first maximal candidate. -/
theorem claim_C6_counterexample :
    IsArgsortOf [5, 5] [0, 1] ∧
    select_best [[1, 0], [0, 1]] [0, 1] = some [0, 1] ∧
    ([[1, 0], [0, 1]] : List (List Nat)).getD 0 [] = [1, 0] ∧
    ([0, 1] : List Nat) ≠ [1, 0] := by
  refine ⟨⟨by decide, by decide⟩, by decide, by decide, by decide⟩

/-- Witness for C6: a concrete six-dye pool of 50 candidates scored by an
all-zero acquisition vector, with the identity permutation as the argsort
outcome. -/
theorem claim_C6_witness :
    ∃ i, i < (generate_diverse_candidates 6 50 [[0, 0, 0, 0, 0, 0]] 100 1
        (fun _ => ⟨0, fun _ => true, fun _ => 0, 0⟩)).length ∧
      random_forest_optimize_next_experiment [[0, 0, 0, 0, 0, 0]] 6 100 1
          (Except.ok ()) (Except.ok (List.replicate 50 0))
          (fun a => List.range a.length)
          ⟨0, fun _ => true, fun _ => 0, 0⟩ ⟨0, fun _ => true, fun _ => 0, 0⟩
          ⟨0, fun _ => true, fun _ => 0, 0⟩
          (fun _ => ⟨0, fun _ => true, fun _ => 0, 0⟩)
          (fun _ => ⟨0, fun _ => true, fun _ => 0, 0⟩) 0 =
        some ((generate_diverse_candidates 6 50 [[0, 0, 0, 0, 0, 0]] 100 1
          (fun _ => ⟨0, fun _ => true, fun _ => 0, 0⟩)).getD i []) ∧
      ∀ j, j < (List.replicate 50 (0 : ℚ)).length →
        (List.replicate 50 (0 : ℚ)).getD j 0 ≤ (List.replicate 50 (0 : ℚ)).getD i 0 :=
  claim_C6 [[0, 0, 0, 0, 0, 0]] 6 100 1 (List.replicate 50 0)
    (fun a => List.range a.length)
    ⟨0, fun _ => true, fun _ => 0, 0⟩ ⟨0, fun _ => true, fun _ => 0, 0⟩
    ⟨0, fun _ => true, fun _ => 0, 0⟩
    (fun _ => ⟨0, fun _ => true, fun _ => 0, 0⟩)
    (fun _ => ⟨0, fun _ => true, fun _ => 0, 0⟩) 0
    (by decide) (by decide) (by decide) ⟨by decide, by decide⟩

/-- Witness for C7: a fit failure and a prediction failure, each at a
concrete six-dye instance, both falling back to `random_combination`. -/
theorem claim_C7_witness :
    (random_forest_optimize_next_experiment [[0, 0, 0, 0, 0, 0]] 6 100 1
        (Except.error "fit failed") (Except.ok []) (fun _ => [])
        ⟨0, fun _ => true, fun _ => 0, 0⟩ ⟨1, fun _ => true, fun _ => 2, 3⟩
        ⟨0, fun _ => true, fun _ => 0, 0⟩
        (fun _ => ⟨0, fun _ => true, fun _ => 0, 0⟩)
        (fun _ => ⟨0, fun _ => true, fun _ => 0, 0⟩) 0 =
      some (random_combination 6 1 100 ⟨1, fun _ => true, fun _ => 2, 3⟩)) ∧
    (random_forest_optimize_next_experiment [[0, 0, 0, 0, 0, 0]] 6 100 1
        (Except.ok ()) (Except.error "predict failed") (fun _ => [])
        ⟨0, fun _ => true, fun _ => 0, 0⟩ ⟨0, fun _ => true, fun _ => 0, 0⟩
        ⟨1, fun _ => true, fun _ => 2, 3⟩
        (fun _ => ⟨0, fun _ => true, fun _ => 0, 0⟩)
        (fun _ => ⟨0, fun _ => true, fun _ => 0, 0⟩) 0 =
      some (random_combination 6 1 100 ⟨1, fun _ => true, fun _ => 2, 3⟩)) := by
  constructor
  · exact (claim_C7 [[0, 0, 0, 0, 0, 0]] 6 100 1 (Except.error "fit failed") (Except.ok [])
      (fun _ => [])
      ⟨0, fun _ => true, fun _ => 0, 0⟩ ⟨1, fun _ => true, fun _ => 2, 3⟩
      ⟨0, fun _ => true, fun _ => 0, 0⟩
      (fun _ => ⟨0, fun _ => true, fun _ => 0, 0⟩)
      (fun _ => ⟨0, fun _ => true, fun _ => 0, 0⟩) 0 (by decide)).1 "fit failed" rfl
  · exact (claim_C7 [[0, 0, 0, 0, 0, 0]] 6 100 1 (Except.ok ()) (Except.error "predict failed")
      (fun _ => [])
      ⟨0, fun _ => true, fun _ => 0, 0⟩ ⟨0, fun _ => true, fun _ => 0, 0⟩
      ⟨1, fun _ => true, fun _ => 2, 3⟩
      (fun _ => ⟨0, fun _ => true, fun _ => 0, 0⟩)
      (fun _ => ⟨0, fun _ => true, fun _ => 0, 0⟩) 0 (by decide)).2 "predict failed" rfl rfl
      (by decide)

/-- `TOLERANCE = 30` of `active_learning`
(src/main_color_matching.py line 208). -/
noncomputable def TOLERANCE : ℝ := 30

/-- `MAX_ITERATIONS = 11` (line 210). -/
def MAX_ITERATIONS : Nat := 11

/-- The seven processed rows A-G (line 215), modelled as indices 0-6;
`rows_to_process` is `List.range NROWS` and `rows_to_process.index(row)`
is `row` itself. -/
def NROWS : Nat := 7

/-- Per-row search state of `active_learning`
(src/main_color_matching.py lines 233-242). -/
structure RowData where
  target_color : List ℝ
  current_iteration : Nat
  X_train : List (List Nat)
  Y_train : List (List ℝ)
  best_match : Option (List Nat)
  best_distance : WithTop ℝ
  completed : Bool
  covering_combinations : List (List Nat)

/-- The controller state: the cursor `current_row` (0 = row A) and the
per-row data. -/
structure ALState where
  current_row : Nat
  row_data : Nat → RowData

/-- One step of the controller: the updated state, the boolean the Python
function returns (`true` = all rows completed), and the experiment
dispensed during this step, if any (`add_color`/measure section,
lines 286-303). -/
structure StepOut where
  state : ALState
  done : Bool
  dispensed : Option (Nat × List Nat)

/-- First-visit initialization of one row (lines 221-242): iteration
counter 0, empty history, no best match, best distance `float('inf')`
(`⊤`), not completed.  The target color (camera) and the covering batch
(`generate_diverse_covering_combinations`, randomized) enter as data. -/
def init_row (target : List ℝ) (covers : List (List Nat)) : RowData :=
  ⟨target, 0, [], [], none, ⊤, false, covers⟩

/-- The fully initialized controller state (lines 212-244): cursor at row
A, each row initialized from the oracles. -/
def init_state (targets : Nat → List ℝ) (covers : Nat → List (List Nat)) : ALState :=
  ⟨0, fun row => init_row (targets row) (covers row)⟩

/-- The cursor-advancing loop (lines 247-255): skip completed rows.
`(some row, row)` lands on the first incomplete row; `(none, row)` means
the cursor ran past the last row with everything completed (the Python
function prints "All rows completed!" and returns True).  The row index
strictly increases, so `fuel = NROWS` always suffices. -/
def skip_completed (rd : Nat → RowData) : Nat → Nat → Option Nat × Nat
  | 0, row => if (rd row).completed then (none, row) else (some row, row)
  | fuel + 1, row =>
    if (rd row).completed then
      if row + 1 < NROWS then skip_completed rd fuel (row + 1)
      else (none, row)
    else (some row, row)

/-- The mixture chosen for the current iteration (lines 272-283): the
precomputed covering combination while any remain, else the surrogate
optimizer.  The surrogate call
(`random_forest_optimize_next_experiment(X_train, Y_train, target, ...)`)
involves the external scikit-learn ensemble, so it enters as the oracle
`choose` applied to exactly the data the code passes. -/
def al_volumes (choose : List (List Nat) → List (List ℝ) → List ℝ → List Nat)
    (rd : RowData) : List Nat :=
  if rd.current_iteration < rd.covering_combinations.length then
    rd.covering_combinations.getD rd.current_iteration []
  else choose rd.X_train rd.Y_train rd.target_color

open Classical in
/-- Recording one measured experiment (lines 299-308): append the volumes
and the measured color to the training history, and update the best
match/distance when the new distance strictly improves on the stored
one. -/
noncomputable def al_record (rd : RowData) (volumes : List Nat) (measured : List ℝ) :
    RowData :=
  if ((calculate_distance_to_target measured rd.target_color : ℝ) : WithTop ℝ) <
      rd.best_distance then
    { rd with
      X_train := rd.X_train ++ [volumes]
      Y_train := rd.Y_train ++ [measured]
      best_distance := ((calculate_distance_to_target measured rd.target_color : ℝ) :
        WithTop ℝ)
      best_match := some volumes }
  else
    { rd with
      X_train := rd.X_train ++ [volumes]
      Y_train := rd.Y_train ++ [measured] }

/-- Marking a row completed (lines 259 and 312). -/
def al_complete (rd : RowData) : RowData := { rd with completed := true }

/-- Incrementing the iteration counter (line 320). -/
def al_next_iter (rd : RowData) : RowData :=
  { rd with current_iteration := rd.current_iteration + 1 }

/-- Cursor advance after completing a row (lines 260-266 and 313-318):
move to the next row when one exists, else report overall completion. -/
def al_advance (row : Nat) (rdat : Nat → RowData)
    (disp : Option (Nat × List Nat)) : StepOut :=
  if row + 1 < NROWS then ⟨⟨row + 1, rdat⟩, false, disp⟩
  else ⟨⟨row, rdat⟩, true, disp⟩

open Classical in
/-- The body of one `active_learning` step once the cursor has landed on
the incomplete row `row` (lines 257-322).  `meas row col` is the camera
color at `(row, col)`; the experiment well is `column = iteration + 2`,
read back at `col_idx = column - 1 = iteration + 1`.  The Python code
records the experiment before testing the tolerance; recording and the
test commute, so the branches below apply `al_record` on both sides. -/
noncomputable def al_step_row (meas : Nat → Nat → List ℝ)
    (choose : List (List Nat) → List (List ℝ) → List ℝ → List Nat)
    (s : ALState) (row : Nat) : StepOut :=
  if MAX_ITERATIONS ≤ (s.row_data row).current_iteration then
    al_advance row
      (Function.update s.row_data row (al_complete (s.row_data row))) none
  else
    if within_tolerance (meas row ((s.row_data row).current_iteration + 1))
        (s.row_data row).target_color TOLERANCE then
      al_advance row
        (Function.update s.row_data row
          (al_complete (al_record (s.row_data row) (al_volumes choose (s.row_data row))
            (meas row ((s.row_data row).current_iteration + 1)))))
        (some (row, al_volumes choose (s.row_data row)))
    else
      ⟨⟨row, Function.update s.row_data row
          (al_next_iter (al_record (s.row_data row) (al_volumes choose (s.row_data row))
            (meas row ((s.row_data row).current_iteration + 1))))⟩,
        false,
        some (row, al_volumes choose (s.row_data row))⟩

open Classical in
/-- One full `active_learning` call on an initialized state: skip
completed rows, then run the per-row body; when every remaining row is
completed, return `True` leaving the data unchanged. -/
noncomputable def al_step (meas : Nat → Nat → List ℝ)
    (choose : List (List Nat) → List (List ℝ) → List ℝ → List Nat)
    (s : ALState) : StepOut :=
  match skip_completed s.row_data NROWS s.current_row with
  | (none, r) => ⟨⟨r, s.row_data⟩, true, none⟩
  | (some row, _) => al_step_row meas choose s row

/-- The controller states reachable from an initialized session: the
initial state for any camera targets and covering batches, and anything
obtained by stepping with any camera readings and surrogate choices. -/
inductive ALReachable : ALState → Prop
  | init (targets : Nat → List ℝ) (covers : Nat → List (List Nat)) :
      ALReachable (init_state targets covers)
  | step (meas : Nat → Nat → List ℝ)
      (choose : List (List Nat) → List (List ℝ) → List ℝ → List Nat) (s : ALState) :
      ALReachable s → ALReachable (al_step meas choose s).state

/-- `al_record` leaves the iteration counter unchanged. -/
lemma al_record_iter (rd : RowData) (v : List Nat) (m : List ℝ) :
    (al_record rd v m).current_iteration = rd.current_iteration := by
  unfold al_record
  split <;> rfl

/-- `al_record` leaves the completion flag unchanged. -/
lemma al_record_completed (rd : RowData) (v : List Nat) (m : List ℝ) :
    (al_record rd v m).completed = rd.completed := by
  unfold al_record
  split <;> rfl

/-- `al_record` leaves the target color unchanged. -/
lemma al_record_target (rd : RowData) (v : List Nat) (m : List ℝ) :
    (al_record rd v m).target_color = rd.target_color := by
  unfold al_record
  split <;> rfl

/-- Projections of the small state-update helpers. -/
lemma al_complete_iter (rd : RowData) :
    (al_complete rd).current_iteration = rd.current_iteration := rfl

lemma al_complete_completed (rd : RowData) : (al_complete rd).completed = true := rfl

lemma al_next_iter_iter (rd : RowData) :
    (al_next_iter rd).current_iteration = rd.current_iteration + 1 := rfl

lemma al_advance_rdat (row : Nat) (rdat : Nat → RowData) (disp : Option (Nat × List Nat)) :
    (al_advance row rdat disp).state.row_data = rdat := by
  unfold al_advance
  split <;> rfl

lemma al_advance_disp (row : Nat) (rdat : Nat → RowData) (disp : Option (Nat × List Nat)) :
    (al_advance row rdat disp).dispensed = disp := by
  unfold al_advance
  split <;> rfl

/-- A row found by the skip loop is incomplete, and is returned as the
new cursor. -/
lemma skip_completed_found (rd : Nat → RowData) :
    ∀ fuel row row' r', skip_completed rd fuel row = (some row', r') →
      (rd row').completed = false ∧ r' = row' := by
  intro fuel
  induction fuel with
  | zero =>
    intro row row' r' h
    rw [skip_completed] at h
    by_cases hc : (rd row).completed = true
    · rw [if_pos hc] at h
      simp at h
    · rw [if_neg hc] at h
      simp only [Prod.mk.injEq, Option.some.injEq] at h
      obtain ⟨rfl, rfl⟩ := h
      exact ⟨by simpa using hc, rfl⟩
  | succ fuel ih =>
    intro row row' r' h
    rw [skip_completed] at h
    by_cases hc : (rd row).completed = true
    · rw [if_pos hc] at h
      by_cases hlt : row + 1 < NROWS
      · rw [if_pos hlt] at h
        exact ih (row + 1) row' r' h
      · rw [if_neg hlt] at h
        simp at h
    · rw [if_neg hc] at h
      simp only [Prod.mk.injEq, Option.some.injEq] at h
      obtain ⟨rfl, rfl⟩ := h
      exact ⟨by simpa using hc, rfl⟩

/-- Equation: a step over an all-completed tail returns `True` and leaves
the row data unchanged. -/
lemma al_step_eq_done (meas : Nat → Nat → List ℝ)
    (choose : List (List Nat) → List (List ℝ) → List ℝ → List Nat) (s : ALState) (r : Nat)
    (h : skip_completed s.row_data NROWS s.current_row = (none, r)) :
    al_step meas choose s = ⟨⟨r, s.row_data⟩, true, none⟩ := by
  unfold al_step
  rw [h]

/-- Equation: a step whose skip loop lands on `row` runs the per-row
body. -/
lemma al_step_eq_row (meas : Nat → Nat → List ℝ)
    (choose : List (List Nat) → List (List ℝ) → List ℝ → List Nat) (s : ALState)
    (row r : Nat)
    (h : skip_completed s.row_data NROWS s.current_row = (some row, r)) :
    al_step meas choose s = al_step_row meas choose s row := by
  unfold al_step
  rw [h]

/-- The iteration counter of every row stays within `MAX_ITERATIONS` in
every reachable state. -/
lemma al_counters_le (s : ALState) (hs : ALReachable s) :
    ∀ row, (s.row_data row).current_iteration ≤ MAX_ITERATIONS := by
  induction hs with
  | init targets covers =>
    intro row
    exact Nat.zero_le _
  | step meas choose s hs ih =>
    intro row
    rcases hsk : skip_completed s.row_data NROWS s.current_row with ⟨found, r⟩
    cases found with
    | none =>
      rw [al_step_eq_done meas choose s r hsk]
      exact ih row
    | some row0 =>
      rw [al_step_eq_row meas choose s row0 r hsk]
      unfold al_step_row
      by_cases hit : MAX_ITERATIONS ≤ (s.row_data row0).current_iteration
      · rw [if_pos hit, al_advance_rdat]
        by_cases heq : row = row0
        · subst heq
          rw [Function.update_same, al_complete_iter]
          exact ih row
        · rw [Function.update_noteq heq]
          exact ih row
      · rw [if_neg hit]
        by_cases htol : within_tolerance
            (meas row0 ((s.row_data row0).current_iteration + 1))
            (s.row_data row0).target_color TOLERANCE
        · rw [if_pos htol, al_advance_rdat]
          by_cases heq : row = row0
          · subst heq
            rw [Function.update_same, al_complete_iter, al_record_iter]
            exact ih row
          · rw [Function.update_noteq heq]
            exact ih row
        · rw [if_neg htol]
          show (Function.update s.row_data row0
              (al_next_iter (al_record (s.row_data row0)
                (al_volumes choose (s.row_data row0))
                (meas row0 ((s.row_data row0).current_iteration + 1))))
              row).current_iteration ≤ MAX_ITERATIONS
          by_cases heq : row = row0
          · subst heq
            rw [Function.update_same, al_next_iter_iter, al_record_iter]
            omega
          · rw [Function.update_noteq heq]
            exact ih row

/-- C2: in every reachable controller state, (1) no iteration counter
exceeds `MAX_ITERATIONS`; and for any single step, (2) an experiment is
dispensed for a row only while its counter is below `MAX_ITERATIONS`,
(3) the visited row is completed without dispensing (the `EXHAUSTED`
transition) exactly when its counter equals `MAX_ITERATIONS`, and (4) a
counter is incremented only when the measured color of this step is not
within tolerance of the row target. -/
theorem claim_C2 (s : ALState) (hs : ALReachable s) (meas : Nat → Nat → List ℝ)
    (choose : List (List Nat) → List (List ℝ) → List ℝ → List Nat) :
    (∀ row, (s.row_data row).current_iteration ≤ MAX_ITERATIONS) ∧
    (∀ row v, (al_step meas choose s).dispensed = some (row, v) →
      (s.row_data row).current_iteration < MAX_ITERATIONS) ∧
    (∀ row r, skip_completed s.row_data NROWS s.current_row = (some row, r) →
      ((((al_step meas choose s).state.row_data row).completed = true ∧
         (al_step meas choose s).dispensed = none) ↔
        (s.row_data row).current_iteration = MAX_ITERATIONS)) ∧
    (∀ row, ((al_step meas choose s).state.row_data row).current_iteration =
        (s.row_data row).current_iteration + 1 →
      ¬ within_tolerance (meas row ((s.row_data row).current_iteration + 1))
        (s.row_data row).target_color TOLERANCE) := by
  refine ⟨al_counters_le s hs, ?_, ?_, ?_⟩
  · -- (2) dispensing only below the cap
    intro row v hdisp
    rcases hsk : skip_completed s.row_data NROWS s.current_row with ⟨found, r⟩
    cases found with
    | none =>
      rw [al_step_eq_done meas choose s r hsk] at hdisp
      exact Option.noConfusion hdisp
    | some row0 =>
      rw [al_step_eq_row meas choose s row0 r hsk] at hdisp
      unfold al_step_row at hdisp
      by_cases hit : MAX_ITERATIONS ≤ (s.row_data row0).current_iteration
      · rw [if_pos hit, al_advance_disp] at hdisp
        exact Option.noConfusion hdisp
      · rw [if_neg hit] at hdisp
        by_cases htol : within_tolerance
            (meas row0 ((s.row_data row0).current_iteration + 1))
            (s.row_data row0).target_color TOLERANCE
        · rw [if_pos htol, al_advance_disp] at hdisp
          have hdisp2 : (some (row0, al_volumes choose (s.row_data row0)) :
              Option (Nat × List Nat)) = some (row, v) := hdisp
          simp only [Option.some.injEq, Prod.mk.injEq] at hdisp2
          obtain ⟨rfl, -⟩ := hdisp2
          omega
        · rw [if_neg htol] at hdisp
          have hdisp2 : (some (row0, al_volumes choose (s.row_data row0)) :
              Option (Nat × List Nat)) = some (row, v) := hdisp
          simp only [Option.some.injEq, Prod.mk.injEq] at hdisp2
          obtain ⟨rfl, -⟩ := hdisp2
          omega
  · -- (3) EXHAUSTED exactly at the cap
    intro row r hsk
    rw [al_step_eq_row meas choose s row r hsk]
    unfold al_step_row
    by_cases hit : MAX_ITERATIONS ≤ (s.row_data row).current_iteration
    · rw [if_pos hit, al_advance_rdat, al_advance_disp, Function.update_same,
        al_complete_completed]
      constructor
      · intro _
        have := al_counters_le s hs row
        omega
      · intro _
        exact ⟨rfl, rfl⟩
    · rw [if_neg hit]
      by_cases htol : within_tolerance
          (meas row ((s.row_data row).current_iteration + 1))
          (s.row_data row).target_color TOLERANCE
      · rw [if_pos htol, al_advance_rdat, al_advance_disp]
        constructor
        · rintro ⟨-, hnone⟩
          exact Option.noConfusion hnone
        · intro heq
          exact absurd heq (by omega)
      · rw [if_neg htol]
        constructor
        · rintro ⟨-, hnone⟩
          exact Option.noConfusion hnone
        · intro heq
          exact absurd heq (by omega)
  · -- (4) increments only on tolerance failure
    intro row hstep
    rcases hsk : skip_completed s.row_data NROWS s.current_row with ⟨found, r⟩
    cases found with
    | none =>
      rw [al_step_eq_done meas choose s r hsk] at hstep
      have hstep2 : (s.row_data row).current_iteration =
          (s.row_data row).current_iteration + 1 := hstep
      exact absurd hstep2 (by omega)
    | some row0 =>
      rw [al_step_eq_row meas choose s row0 r hsk] at hstep
      unfold al_step_row at hstep
      by_cases hit : MAX_ITERATIONS ≤ (s.row_data row0).current_iteration
      · rw [if_pos hit, al_advance_rdat] at hstep
        by_cases heq : row = row0
        · subst heq
          rw [Function.update_same, al_complete_iter] at hstep
          exact absurd hstep (by omega)
        · rw [Function.update_noteq heq] at hstep
          exact absurd hstep (by omega)
      · rw [if_neg hit] at hstep
        by_cases htol : within_tolerance
            (meas row0 ((s.row_data row0).current_iteration + 1))
            (s.row_data row0).target_color TOLERANCE
        · rw [if_pos htol, al_advance_rdat] at hstep
          by_cases heq : row = row0
          · subst heq
            rw [Function.update_same, al_complete_iter, al_record_iter] at hstep
            exact absurd hstep (by omega)
          · rw [Function.update_noteq heq] at hstep
            exact absurd hstep (by omega)
        · rw [if_neg htol] at hstep
          have hstep2 : (Function.update s.row_data row0
              (al_next_iter (al_record (s.row_data row0)
                (al_volumes choose (s.row_data row0))
                (meas row0 ((s.row_data row0).current_iteration + 1))))
              row).current_iteration = (s.row_data row).current_iteration + 1 := hstep
          by_cases heq : row = row0
          · subst heq
            exact htol
          · rw [Function.update_noteq heq] at hstep2
            exact absurd hstep2 (by omega)

/-- Witness for C2: the freshly initialized session is reachable and its
first row starts within the iteration cap. -/
theorem claim_C2_witness :
    ((init_state (fun _ => ([] : List ℝ))
        (fun _ => ([] : List (List Nat)))).row_data 0).current_iteration ≤
      MAX_ITERATIONS :=
  (claim_C2 (init_state (fun _ => []) (fun _ => []))
    (ALReachable.init (fun _ => []) (fun _ => []))
    (fun _ _ => []) (fun _ _ _ => [])).1 0

/-- `al_record` appends the volumes to the training inputs. -/
lemma al_record_X (rd : RowData) (v : List Nat) (m : List ℝ) :
    (al_record rd v m).X_train = rd.X_train ++ [v] := by
  unfold al_record
  split <;> rfl

/-- `al_record` appends the measured color to the training outputs. -/
lemma al_record_Y (rd : RowData) (v : List Nat) (m : List ℝ) :
    (al_record rd v m).Y_train = rd.Y_train ++ [m] := by
  unfold al_record
  split <;> rfl

/-- The covering batch is untouched by `al_record`. -/
lemma al_record_covers (rd : RowData) (v : List Nat) (m : List ℝ) :
    (al_record rd v m).covering_combinations = rd.covering_combinations := by
  unfold al_record
  split <;> rfl

/-- `al_record` on a strict improvement stores the new distance and
mixture. -/
lemma al_record_best_pos (rd : RowData) (v : List Nat) (m : List ℝ)
    (h : ((calculate_distance_to_target m rd.target_color : ℝ) : WithTop ℝ) <
      rd.best_distance) :
    (al_record rd v m).best_distance =
      ((calculate_distance_to_target m rd.target_color : ℝ) : WithTop ℝ) ∧
    (al_record rd v m).best_match = some v := by
  unfold al_record
  rw [if_pos h]
  exact ⟨rfl, rfl⟩

/-- `al_record` without a strict improvement keeps the stored best. -/
lemma al_record_best_neg (rd : RowData) (v : List Nat) (m : List ℝ)
    (h : ¬ ((calculate_distance_to_target m rd.target_color : ℝ) : WithTop ℝ) <
      rd.best_distance) :
    (al_record rd v m).best_distance = rd.best_distance ∧
    (al_record rd v m).best_match = rd.best_match := by
  unfold al_record
  rw [if_neg h]
  exact ⟨rfl, rfl⟩

/-- The distances of a row's recorded colors to its target, in history
order. -/
noncomputable def row_dists (rd : RowData) : List ℝ :=
  rd.Y_train.map (fun c => calculate_distance_to_target c rd.target_color)

/-- `al_record` appends the new distance to the row's distance list. -/
lemma row_dists_record (rd : RowData) (v : List Nat) (m : List ℝ) :
    row_dists (al_record rd v m) =
      row_dists rd ++ [calculate_distance_to_target m rd.target_color] := by
  unfold row_dists
  rw [al_record_Y, al_record_target, List.map_append]
  rfl

/-- The running minimum of a list of real distances, `⊤` when empty
(mirroring the `float('inf')` seed). -/
noncomputable def listInf (l : List ℝ) : WithTop ℝ :=
  l.foldr (fun d acc => min (d : WithTop ℝ) acc) ⊤

/-- Appending to the list takes the minimum with the appended value. -/
lemma listInf_append_single (l : List ℝ) (x : ℝ) :
    listInf (l ++ [x]) = min (listInf l) (x : WithTop ℝ) := by
  induction l with
  | nil =>
    show min (x : WithTop ℝ) ⊤ = min ⊤ (x : WithTop ℝ)
    rw [min_eq_left le_top, min_eq_right le_top]
  | cons a t ih =>
    show min (a : WithTop ℝ) (listInf (t ++ [x])) =
      min (min (a : WithTop ℝ) (listInf t)) (x : WithTop ℝ)
    rw [ih, min_assoc]

/-- The running minimum is a lower bound. -/
lemma listInf_le (l : List ℝ) (x : ℝ) (hx : x ∈ l) : listInf l ≤ (x : WithTop ℝ) := by
  induction l with
  | nil => cases hx
  | cons a t ih =>
    rcases List.mem_cons.mp hx with rfl | hx
    · exact min_le_left _ _
    · exact le_trans (min_le_right _ _) (ih hx)

/-- C9 invariant of one row: histories have equal length, the stored best
distance is the minimum over the history of distances to the target
(`⊤`, i.e. `float('inf')`, before any experiment), and the stored best
mixture is the EARLIEST history entry attaining that minimum (no entry
before it attains it, every entry before it is strictly worse). -/
def RowInv9 (rd : RowData) : Prop :=
  rd.X_train.length = rd.Y_train.length ∧
  rd.best_distance = listInf (row_dists rd) ∧
  (rd.best_match = none ↔ rd.Y_train = []) ∧
  ∀ w, rd.best_match = some w →
    ∃ i, i < rd.X_train.length ∧ w = rd.X_train.getD i [] ∧
      ((calculate_distance_to_target (rd.Y_train.getD i []) rd.target_color : ℝ) :
        WithTop ℝ) = rd.best_distance ∧
      ∀ j, j < i → rd.best_distance <
        ((calculate_distance_to_target (rd.Y_train.getD j []) rd.target_color : ℝ) :
          WithTop ℝ)

/-- An indexed element of the distance list is a member of it. -/
lemma row_dist_mem (rd : RowData) (j : Nat) (hj : j < rd.Y_train.length) :
    calculate_distance_to_target (rd.Y_train.getD j []) rd.target_color ∈ row_dists rd := by
  unfold row_dists
  rw [List.getD_eq_getElem rd.Y_train [] hj]
  exact List.mem_map_of_mem _ (List.getElem_mem _)

/-- Recording an experiment preserves the best-so-far invariant. -/
lemma al_record_rowinv (rd : RowData) (v : List Nat) (m : List ℝ)
    (h : RowInv9 rd) : RowInv9 (al_record rd v m) := by
  obtain ⟨hlen, hbest, hnone, hsome⟩ := h
  by_cases hlt : ((calculate_distance_to_target m rd.target_color : ℝ) : WithTop ℝ) <
      rd.best_distance
  · obtain ⟨hbd', hbm'⟩ := al_record_best_pos rd v m hlt
    refine ⟨?_, ?_, ?_, ?_⟩
    · rw [al_record_X, al_record_Y]
      simp [hlen]
    · rw [hbd', row_dists_record, listInf_append_single, ← hbest,
        min_eq_right (le_of_lt hlt)]
    · constructor
      · intro hbm
        rw [hbm'] at hbm
        exact Option.noConfusion hbm
      · intro hYnil
        rw [al_record_Y] at hYnil
        exact absurd hYnil (by simp)
    · intro w hw
      rw [hbm'] at hw
      injection hw with hw
      subst hw
      refine ⟨rd.X_train.length, ?_, ?_, ?_, ?_⟩
      · rw [al_record_X]
        simp
      · rw [al_record_X, List.getD_append_right _ _ _ _ (le_refl _)]
        simp
      · rw [al_record_Y, al_record_target, hbd', hlen,
          List.getD_append_right _ _ _ _ (le_refl _)]
        simp
      · intro j hj
        rw [hbd', al_record_Y, al_record_target,
          List.getD_append _ _ _ _ (by omega)]
        refine lt_of_lt_of_le hlt ?_
        rw [hbest]
        exact listInf_le _ _ (row_dist_mem rd j (by omega))
  · obtain ⟨hbd', hbm'⟩ := al_record_best_neg rd v m hlt
    have hbmne : rd.best_match ≠ none := by
      intro hbm
      have hY := hnone.mp hbm
      have : rd.best_distance = ⊤ := by
        rw [hbest]
        unfold row_dists
        rw [hY]
        rfl
      rw [this] at hlt
      exact hlt (WithTop.coe_lt_top _)
    refine ⟨?_, ?_, ?_, ?_⟩
    · rw [al_record_X, al_record_Y]
      simp [hlen]
    · rw [hbd', row_dists_record, listInf_append_single, ← hbest,
        min_eq_left (not_lt.mp hlt)]
    · constructor
      · intro hbm
        rw [hbm'] at hbm
        exact absurd hbm hbmne
      · intro hYnil
        rw [al_record_Y] at hYnil
        exact absurd hYnil (by simp)
    · intro w hw
      rw [hbm'] at hw
      obtain ⟨i, hi, hwi, hdist, hstrict⟩ := hsome w hw
      refine ⟨i, ?_, ?_, ?_, ?_⟩
      · rw [al_record_X]
        simp
        omega
      · rw [al_record_X, List.getD_append _ _ _ _ hi]
        exact hwi
      · rw [al_record_Y, al_record_target, hbd',
          List.getD_append _ _ _ _ (by omega)]
        exact hdist
      · intro j hj
        rw [hbd', al_record_Y, al_record_target,
          List.getD_append _ _ _ _ (by omega)]
        exact hstrict j hj

/-- Marking a row completed does not touch the fields of the best-so-far
invariant. -/
lemma RowInv9_complete (rd : RowData) (h : RowInv9 rd) : RowInv9 (al_complete rd) := h

/-- Incrementing the iteration counter does not touch the fields of the
best-so-far invariant. -/
lemma RowInv9_next_iter (rd : RowData) (h : RowInv9 rd) : RowInv9 (al_next_iter rd) := h

/-- Every reachable controller state satisfies the best-so-far invariant
on every row. -/
lemma al_inv9 (s : ALState) (hs : ALReachable s) : ∀ row, RowInv9 (s.row_data row) := by
  induction hs with
  | init targets covers =>
    intro row
    exact ⟨rfl, rfl, ⟨fun _ => rfl, fun _ => rfl⟩, fun w hw => Option.noConfusion hw⟩
  | step meas choose s hs ih =>
    intro row
    rcases hsk : skip_completed s.row_data NROWS s.current_row with ⟨found, r⟩
    cases found with
    | none =>
      rw [al_step_eq_done meas choose s r hsk]
      exact ih row
    | some row0 =>
      rw [al_step_eq_row meas choose s row0 r hsk]
      unfold al_step_row
      by_cases hit : MAX_ITERATIONS ≤ (s.row_data row0).current_iteration
      · rw [if_pos hit, al_advance_rdat]
        by_cases heq : row = row0
        · subst heq
          rw [Function.update_same]
          exact RowInv9_complete _ (ih row)
        · rw [Function.update_noteq heq]
          exact ih row
      · rw [if_neg hit]
        by_cases htol : within_tolerance
            (meas row0 ((s.row_data row0).current_iteration + 1))
            (s.row_data row0).target_color TOLERANCE
        · rw [if_pos htol, al_advance_rdat]
          by_cases heq : row = row0
          · subst heq
            rw [Function.update_same]
            exact RowInv9_complete _ (al_record_rowinv _ _ _ (ih row))
          · rw [Function.update_noteq heq]
            exact ih row
        · rw [if_neg htol]
          show RowInv9 (Function.update s.row_data row0
            (al_next_iter (al_record (s.row_data row0)
              (al_volumes choose (s.row_data row0))
              (meas row0 ((s.row_data row0).current_iteration + 1)))) row)
          by_cases heq : row = row0
          · subst heq
            rw [Function.update_same]
            exact RowInv9_next_iter _ (al_record_rowinv _ _ _ (ih row))
          · rw [Function.update_noteq heq]
            exact ih row

/-- C9: best-so-far tracking is an invariant of the controller.  The best
distance starts at `float('inf')` (`⊤`), and in every reachable state every
row's best distance equals the minimum over its history of the distance
between measured and target color, with the best match the earliest
history entry achieving that minimum (`RowInv9`). -/
theorem claim_C9 (s : ALState) (hs : ALReachable s) :
    (∀ (targets : Nat → List ℝ) (covers : Nat → List (List Nat)) (row : Nat),
      ((init_state targets covers).row_data row).best_distance = ⊤) ∧
    ∀ row, RowInv9 (s.row_data row) :=
  ⟨fun _ _ _ => rfl, al_inv9 s hs⟩

/-- Witness for C9 at the freshly initialized session. -/
theorem claim_C9_witness :
    ((init_state (fun _ => ([] : List ℝ))
        (fun _ => ([] : List (List Nat)))).row_data 0).best_distance = (⊤ : WithTop ℝ) ∧
    RowInv9 ((init_state (fun _ => ([] : List ℝ))
        (fun _ => ([] : List (List Nat)))).row_data 0) :=
  ⟨(claim_C9 (init_state (fun _ => []) (fun _ => []))
      (ALReachable.init (fun _ => []) (fun _ => []))).1 (fun _ => []) (fun _ => []) 0,
   (claim_C9 (init_state (fun _ => []) (fun _ => []))
      (ALReachable.init (fun _ => []) (fun _ => []))).2 0⟩
